import Mathlib

/-!
Verification development for the emlee email viewer (src/main.py).

The Python source is shallowly embedded below: each `def` named after a
source function translates that function's observable behaviour.  Bytes
are modelled as `List Nat`, the filesystem as an association list from
path strings to byte lists (most recent write first), and a raised
Python exception as an error value that propagates (there is no
try/except inside `load_eml`, so an error there aborts the whole load).
-/

namespace Emlee

/-! ## String utilities -/

/-- Lowercase every character of a string (models Python `str.lower` for
the ASCII names exercised here). -/
def lowerStr (s : String) : String := String.mk (s.data.map Char.toLower)

/-- Lexicographic less-or-equal on character lists by code point, the
order Python uses to compare strings. -/
def lexLe : List Char → List Char → Bool
  | [], _ => true
  | _ :: _, [] => false
  | a :: as, b :: bs =>
    if a.toNat < b.toNat then true
    else if a.toNat = b.toNat then lexLe as bs
    else false

/-- Case-insensitive comparison key used by `sorted(files, key=lambda s: s.lower())`. -/
def leLower (a b : String) : Bool := lexLe (a.data.map Char.toLower) (b.data.map Char.toLower)

/-- Insert into a sorted list, after any element with an equal key, so
that the overall sort is stable like Python's `sorted`. -/
def insSorted (x : String) : List String → List String
  | [] => [x]
  | y :: ys => if leLower y x then y :: insSorted x ys else x :: y :: ys

/-- Stable sort by the case-insensitive key.  A stable sort is uniquely
determined by the key, so this agrees with Python's `sorted(..., key=str.lower)`. -/
def sortByLower (l : List String) : List String := l.foldl (fun acc x => insSorted x acc) []

/-- Substring test, modelling Python's `needle in haystack` on strings. -/
def containsSeq (needle hay : List Char) : Bool :=
  (List.range (hay.length + 1)).any (fun i => needle.isPrefixOf (hay.drop i))

/-- One character of `html.escape(s, quote=True)`: `&`, `<`, `>`, the
double quote (code 34) and the apostrophe (code 39) are replaced by
their entity forms.  Python performs the replacements sequentially but
the targets are disjoint from the replacement texts' later targets, so
the character-wise map is equivalent. -/
def escChar (c : Char) : List Char :=
  if c = '&' then "&amp;".data
  else if c = '<' then "&lt;".data
  else if c = '>' then "&gt;".data
  else if c.toNat = 34 then "&quot;".data
  else if c.toNat = 39 then "&#x27;".data
  else [c]

/-- Model of `html.escape` as used at src/main.py:175 and :182. -/
def htmlEscape (s : String) : String := String.mk (s.data.map escChar).flatten

/-! ## Path handling (POSIX semantics, as in `os.path`) -/

/-- Split a character list on `'/'`, keeping empty groups, as
`str.split('/')` would. -/
def splitSlashAux : List Char → List Char → List String
  | [], acc => [String.mk acc.reverse]
  | c :: rest, acc =>
    if c = '/' then String.mk acc.reverse :: splitSlashAux rest []
    else splitSlashAux rest (c :: acc)

def splitSlash (l : List Char) : List String := splitSlashAux l []

/-- One step of path normalisation: drop empty and `.` components and
let `..` cancel the previous component (at the root it is dropped). -/
def normStep (acc : List String) (c : String) : List String :=
  if c = "" ∨ c = "." then acc else if c = ".." then acc.dropLast else acc ++ [c]

def normComps (l : List String) : List String := l.foldl normStep []

/-- The directory components a path actually denotes once `..` and `.`
are resolved; used to state where an attachment write really lands. -/
def resolved (p : String) : List String := normComps (splitSlash p.data)

/-- Model of `os.path.join(a, b)` (posixpath): an absolute `b` discards
`a`; otherwise the parts are joined with a single separator. -/
def ospJoin (a b : String) : String :=
  if b.data.head? = some '/' then b
  else if a.data = [] ∨ a.data.getLast? = some '/' then a ++ b
  else a ++ "/" ++ b

/-- Model of `os.path.dirname`: everything before the last `/`, with
trailing separators stripped unless the result is all separators. -/
def dirnameOf (p : String) : String :=
  let head := (p.data.reverse.dropWhile (· ≠ '/')).reverse
  if head.all (· = '/') then String.mk head
  else String.mk (head.reverse.dropWhile (· = '/')).reverse

/-- The extension part of `os.path.splitext` applied to the basename:
the suffix from the last dot, provided some earlier character of the
basename is not a dot. -/
def extOf (base : List Char) : List Char :=
  let rest := base.dropWhile (· = '.')
  if rest.contains '.' then '.' :: (rest.reverse.takeWhile (· ≠ '.')).reverse
  else []

def basenameChars (p : String) : List Char := (p.data.reverse.takeWhile (· ≠ '/')).reverse

/-- Model of `os.path.splitext(file_path)[1].lower()` (src/main.py:134). -/
def lowerExt (p : String) : String := String.mk ((extOf (basenameChars p)).map Char.toLower)

/-! ## Data model of the parsed .eml message

A Python value returned by `EmailMessage.get_content()` is either text
or raw bytes; `Option PyVal` with `none` models the call raising (for
example a `LookupError` on an unknown charset).  The code only ever
consumes a message through `is_multipart()`, `walk()`, the header
accessors and, for non-multipart messages, the root part's accessors,
so a message is embedded as its root part plus the rest of its walk
order (`walk()` yields the message itself first, then descendants). -/

inductive PyVal where
  | str (s : String)
  | bytes (b : List Nat)
deriving DecidableEq, Repr

structure Part where
  /-- `part.get_content_type()`. -/
  contentType : String
  /-- `part.get("Content-Disposition", "")`: the raw header value, empty when absent. -/
  dispHeader : String
  /-- `part.get_content_disposition()`: the lowercased disposition token, `none` when absent. -/
  contentDisposition : Option String
  /-- `part.get_filename()`. -/
  filename : Option String
  /-- `part.get_content()`; `none` models the call raising a decode error. -/
  content : Option PyVal
  /-- `part.get_payload(decode=True)`. -/
  payloadDecoded : List Nat
deriving DecidableEq, Repr

structure Message where
  hFrom : String
  hTo : String
  hCc : String
  hBcc : String
  hSubject : String
  hDate : String
  /-- `msg.is_multipart()`. -/
  multipart : Bool
  rootPart : Part
  /-- The non-root parts in `walk()` order; empty for a non-multipart message. -/
  subParts : List Part
deriving Repr

/-- `msg.walk()` yields the message itself followed by its descendants. -/
def Message.walkParts (m : Message) : List Part := m.rootPart :: m.subParts

/-! ## Data model of the .msg container (extract_msg collaborator) -/

structure MsgAttachment where
  longFilename : Option String
  shortFilename : Option String
  data : List Nat
deriving DecidableEq, Repr

structure MsgData where
  sender : Option String
  /-- `msg.to` (`to` is reserved in Lean, hence the name). -/
  toAddr : Option String
  cc : Option String
  bcc : Option String
  date : Option String
  subject : Option String
  /-- `msg.htmlBody`, already decoded to text (the source decodes bytes with
  `errors="replace"` before use, so only the resulting text matters). -/
  htmlBody : Option String
  body : Option String
  attachments : List MsgAttachment
deriving Repr

/-! ## Viewer state and environment -/

/-- The fields of `EmailViewer` the core mutates, plus the displayed body
and header label texts. -/
structure ViewerState where
  current_email_path : Option String
  email_files_list : List String
  current_index : Int
  /-- `self.attachments`: filename → temporary path, insertion ordered like a Python dict. -/
  attachments : List (String × String)
  /-- The attachment list widget's item texts. -/
  attachItems : List String
  label_from : String
  label_to : String
  label_cc : String
  label_bcc : String
  label_subject : String
  label_date : String
  /-- The HTML last passed to `body_text.setHtml`. -/
  bodyHtml : String
deriving DecidableEq, Repr

/-- The state of a freshly constructed `EmailViewer` (src/main.py:30-35, 60-65). -/
def st0 : ViewerState :=
  ⟨none, [], -1, [], [], "From: ", "To: ", "CC: ", "BCC: ", "Subject: ", "Date: ", ""⟩

/-- Inputs the environment supplies to one open-email operation. -/
structure Env where
  /-- Names (not paths) in the directory of the opened file, in OS listing order. -/
  dirListing : List String
  /-- Whether `extract_msg` imported successfully. -/
  extractMsgAvail : Bool
  /-- `tempfile.gettempdir()`. -/
  tmpDir : String
  /-- Paths at which opening for write raises (disk full, bad name). -/
  writeFails : List String
deriving Repr

inductive LoadErr where
  /-- `get_content()` raised while decoding a part. -/
  | decodeFail
  /-- A `TypeError`: `html.escape`/`setHtml` applied to bytes. -/
  | typeFail
  /-- Opening `path` for writing raised an `OSError`. -/
  | writeFail (path : String)
deriving DecidableEq, Repr

inductive Outcome where
  /-- The load ran to completion. -/
  | ok
  /-- "Unsupported file format." dialog (src/main.py:144). -/
  | unrecognized
  /-- "MSG file support not available." dialog (src/main.py:141). -/
  | msgUnsupported
  /-- An uncaught Python exception aborted the load mid-way. -/
  | raised (e : LoadErr)
deriving DecidableEq, Repr

/-- Result of one operation: the mutated state, the filesystem, how the
operation ended, and the error messages printed per attachment. -/
structure StepResult where
  st : ViewerState
  fs : List (String × List Nat)
  outcome : Outcome
  log : List String
deriving DecidableEq, Repr

/-- Write to the modelled filesystem; the newest binding shadows older ones. -/
def fsWrite (fs : List (String × List Nat)) (path : String) (d : List Nat) :
    List (String × List Nat) := (path, d) :: fs

/-- Python dict assignment `m[k] = v`: updates in place, else appends. -/
def dictInsert (k v : String) : List (String × String) → List (String × String)
  | [] => [(k, v)]
  | (k', v') :: rest => if k' = k then (k, v) :: rest else (k', v') :: dictInsert k v rest

/-! ## Body selection (src/main.py:162-182, 220-227) -/

/-- Python truthiness of an optional string: `None` and `""` are falsy. -/
def strTruthy : Option String → Bool
  | some s => s ≠ ""
  | none => false

def pvTruthy : PyVal → Bool
  | .str s => s ≠ ""
  | .bytes b => b ≠ []

def optPvTruthy : Option PyVal → Bool
  | some v => pvTruthy v
  | none => false

/-- The body choice of src/main.py:172-175 (and 221-227 for .msg), over
textual candidates.  The boolean is the §4.3 `bodyIsHtml` flag: true
exactly when the HTML branch was taken, so the candidate is rendered
verbatim rather than escaped and wrapped in `<pre>`. -/
def selectBody (html_body plain_body : Option String) : String × Bool :=
  if strTruthy html_body then (html_body.getD "", true)
  else if strTruthy plain_body then
    ("<pre>" ++ htmlEscape (plain_body.getD "") ++ "</pre>", false)
  else ("", false)

/-- The same choice over raw `get_content()` results: a bytes value that
wins the truthiness test makes `html.escape`/`setHtml` raise a
`TypeError` (this cannot happen for `text/*` parts, whose content
manager returns text, but the definition keeps the source's behaviour). -/
def selectBodyPV (h p : Option PyVal) : Except LoadErr String :=
  if optPvTruthy h then
    match h with
    | some (.str s) => .ok s
    | some (.bytes _) => .error .typeFail
    | none => .ok ""
  else if optPvTruthy p then
    match p with
    | some (.str s) => .ok ("<pre>" ++ htmlEscape s ++ "</pre>")
    | some (.bytes _) => .error .typeFail
    | none => .ok ""
  else .ok ""

/-- The candidate-collecting walk of src/main.py:166-171: each later
qualifying part overwrites the stored candidate; a raising
`get_content()` (modelled by `content = none`) aborts the whole walk
because there is no try/except around it. -/
def scanBody : List Part → Option PyVal → Option PyVal → Option (Option PyVal × Option PyVal)
  | [], h, p => some (h, p)
  | part :: rest, h, p =>
    if part.contentDisposition = none then
      if part.contentType = "text/html" then
        match part.content with
        | none => none
        | some v => scanBody rest (some v) p
      else if part.contentType = "text/plain" then
        match part.content with
        | none => none
        | some v => scanBody rest h (some v)
      else scanBody rest h p
    else scanBody rest h p

/-- The body computed by `load_eml` (src/main.py:161-182): the candidate
walk and selection for multipart messages, the single part's content
otherwise.  A bytes content in the non-multipart branch reaches
`html.escape` (or `setHtml`) and raises a `TypeError`. -/
def computeBody (m : Message) : Except LoadErr String :=
  if m.multipart then
    match scanBody m.walkParts none none with
    | none => .error .decodeFail
    | some (h, p) => selectBodyPV h p
  else
    match m.rootPart.content with
    | none => .error .decodeFail
    | some (.str s) =>
      if m.rootPart.contentType = "text/html" then .ok s
      else .ok ("<pre>" ++ htmlEscape s ++ "</pre>")
    | some (.bytes _) => .error .typeFail

/-! ## Attachment materialization (src/main.py:187-202, 231-246) -/

/-- The test `"attachment" in part.get("Content-Disposition", "")`. -/
def attachmentTagged (p : Part) : Bool := containsSeq "attachment".data p.dispHeader.data

/-- The .eml attachment loop (src/main.py:188-202).  There is no
try/except, so a failing write raises and aborts the loop, keeping the
filesystem writes and dictionary entries made so far.  Returns the
filesystem, the filename → path dict, the list-widget items and the
error that aborted the loop, if any. -/
def processAttachments (tmp : String) (wf : List String) :
    List Part → List (String × List Nat) → List (String × String) → List String →
    List (String × List Nat) × List (String × String) × List String × Option LoadErr
  | [], fs, am, items => (fs, am, items, none)
  | p :: rest, fs, am, items =>
    if attachmentTagged p then
      if strTruthy p.filename then
        let fn := p.filename.getD ""
        let path := ospJoin tmp fn
        if path ∈ wf then (fs, am, items, some (.writeFail path))
        else
          processAttachments tmp wf rest (fsWrite fs path p.payloadDecoded)
            (dictInsert fn path am) (items ++ [fn])
      else processAttachments tmp wf rest fs am items
    else processAttachments tmp wf rest fs am items

/-- `att.longFilename if att.longFilename else att.shortFilename`, then
the `if filename:` guard; `none` when the part is skipped. -/
def msgEffName (a : MsgAttachment) : Option String :=
  let n := if strTruthy a.longFilename then a.longFilename else a.shortFilename
  if strTruthy n then n else none

/-- The .msg attachment loop (src/main.py:232-246): each write is inside
try/except, so a failure only logs that attachment and the loop
continues. -/
def processMsgAttachments (tmp : String) (wf : List String) :
    List MsgAttachment → List (String × List Nat) → List (String × String) →
    List String → List String →
    List (String × List Nat) × List (String × String) × List String × List String
  | [], fs, am, items, log => (fs, am, items, log)
  | a :: rest, fs, am, items, log =>
    match msgEffName a with
    | none => processMsgAttachments tmp wf rest fs am items log
    | some fn =>
      let path := ospJoin tmp fn
      if path ∈ wf then processMsgAttachments tmp wf rest fs am items (log ++ [fn])
      else
        processMsgAttachments tmp wf rest (fsWrite fs path a.data)
          (dictInsert fn path am) (items ++ [fn]) log

/-! ## The load operations -/

/-- `EmailViewer.load_eml` (src/main.py:149-202), given the parse result
of the opened file.  Header labels are set first; a decode failure in
the body walk then aborts with the labels already overwritten; a write
failure in the attachment loop aborts with earlier attachments already
recorded. -/
def load_eml (env : Env) (st : ViewerState) (m : Message)
    (fs : List (String × List Nat)) : StepResult :=
  let st1 := { st with
    label_from := "From: " ++ m.hFrom, label_to := "To: " ++ m.hTo,
    label_cc := "CC: " ++ m.hCc, label_bcc := "BCC: " ++ m.hBcc,
    label_subject := "Subject: " ++ m.hSubject, label_date := "Date: " ++ m.hDate }
  match computeBody m with
  | .error e => ⟨st1, fs, .raised e, []⟩
  | .ok body =>
    let st2 := { st1 with bodyHtml := body }
    match processAttachments env.tmpDir env.writeFails m.walkParts fs
        st2.attachments st2.attachItems with
    | (fs', am, items, none) =>
      ⟨{ st2 with attachments := am, attachItems := items }, fs', .ok, []⟩
    | (fs', am, items, some e) =>
      ⟨{ st2 with attachments := am, attachItems := items }, fs', .raised e, []⟩

/-- `EmailViewer.load_msg` (src/main.py:204-246), given the container
reader's output.  `msg.sender or ""` maps `None` and `""` alike to `""`,
which is exactly `Option.getD ""` on this model. -/
def load_msg (env : Env) (st : ViewerState) (md : MsgData)
    (fs : List (String × List Nat)) : StepResult :=
  let st1 := { st with
    label_from := "From: " ++ md.sender.getD "", label_to := "To: " ++ md.toAddr.getD "",
    label_cc := "CC: " ++ md.cc.getD "", label_bcc := "BCC: " ++ md.bcc.getD "",
    label_subject := "Subject: " ++ md.subject.getD "",
    label_date := "Date: " ++ md.date.getD "" }
  let st2 := { st1 with bodyHtml := (selectBody md.htmlBody md.body).1 }
  match processMsgAttachments env.tmpDir env.writeFails md.attachments fs
      st2.attachments st2.attachItems [] with
  | (fs', am, items, log) =>
    ⟨{ st2 with attachments := am, attachItems := items }, fs', .ok, log⟩

/-- Whether a directory entry matches the glob pattern `*<ext>`:
case-sensitive suffix match, and glob never matches names that start
with a dot. -/
def globMatch (ext : String) (name : String) : Bool :=
  name.data.head? ≠ some '.' ∧ ext.data.isSuffixOf name.data

/-- The navigation list rebuild of src/main.py:116-124: glob for
`*.eml`, then `*.msg` when `extract_msg` is available, then one stable
case-insensitive sort of the full paths. -/
def rebuildList (avail : Bool) (listing : List String) (dir : String) : List String :=
  let eml := (listing.filter (fun n => globMatch ".eml" n)).map (fun n => ospJoin dir n)
  let msgs := (listing.filter (fun n => globMatch ".msg" n)).map (fun n => ospJoin dir n)
  sortByLower (if avail then eml ++ msgs else eml)

/-- `list.index` wrapped in try/except ValueError (src/main.py:125-128). -/
def findIdx? : List String → String → Option Nat
  | [], _ => none
  | y :: ys, x => if y = x then some 0 else (findIdx? ys x).map (· + 1)

def indexOrNeg (l : List String) (x : String) : Int :=
  match findIdx? l x with
  | some i => (i : Int)
  | none => -1

/-- The placeholder shown before dispatch (src/main.py:109). -/
def loadingMsg : String := "<p>Loading email, please wait...</p>"

/-- The mutations src/main.py:108-132 performs before the extension is
examined: the body is replaced by a placeholder, the current path set,
the navigation state rebuilt and the attachment map and list cleared.
They happen even when the format is subsequently rejected. -/
def preDispatch (env : Env) (st : ViewerState) (path : String) : ViewerState :=
  { st with
    bodyHtml := loadingMsg, current_email_path := some path,
    email_files_list := rebuildList env.extractMsgAvail env.dirListing (dirnameOf path),
    current_index :=
      indexOrNeg (rebuildList env.extractMsgAvail env.dirListing (dirnameOf path)) path,
    attachments := [], attachItems := [] }

/-- `EmailViewer.load_email_file` (src/main.py:107-144).  `mime` and
`msgd` are what the respective reader would return for `path`; only the
one selected by the extension is consulted. -/
def load_email_file (env : Env) (st : ViewerState) (path : String)
    (mime : Message) (msgd : MsgData) (fs : List (String × List Nat)) : StepResult :=
  if lowerExt path = ".eml" then load_eml env (preDispatch env st path) mime fs
  else if lowerExt path = ".msg" then
    if env.extractMsgAvail then load_msg env (preDispatch env st path) msgd fs
    else ⟨preDispatch env st path, fs, .msgUnsupported, []⟩
  else ⟨preDispatch env st path, fs, .unrecognized, []⟩

/-! ## Sibling navigation (src/main.py:258-266) -/

structure NavState where
  paths : List String
  idx : Int
deriving DecidableEq, Repr

/-- The index move of `load_next`: with a non-empty list the next index
is `(current + 1) % count`; reloading the file at that position then
makes it the current index (see `load_next_index` below for the
derivation from the full model). -/
def navNext (s : NavState) : NavState :=
  if s.paths.isEmpty then s else ⟨s.paths, (s.idx + 1) % (s.paths.length : Int)⟩

/-- The index move of `load_previous`. -/
def navPrev (s : NavState) : NavState :=
  if s.paths.isEmpty then s else ⟨s.paths, (s.idx - 1) % (s.paths.length : Int)⟩

def navNextN : Nat → NavState → NavState
  | 0, s => s
  | n + 1, s => navNextN n (navNext s)

/-- `EmailViewer.load_next` (src/main.py:258-261): a no-op on an empty
list, otherwise a full reload of the file at the wrapped next index. -/
def load_next (env : Env) (st : ViewerState) (mime : Message) (msgd : MsgData)
    (fs : List (String × List Nat)) : StepResult :=
  if st.email_files_list.isEmpty then ⟨st, fs, .ok, []⟩
  else
    let j := ((st.current_index + 1) % (st.email_files_list.length : Int)).toNat
    load_email_file env st (st.email_files_list.getD j "") mime msgd fs

/-- `EmailViewer.load_previous` (src/main.py:263-266). -/
def load_previous (env : Env) (st : ViewerState) (mime : Message) (msgd : MsgData)
    (fs : List (String × List Nat)) : StepResult :=
  if st.email_files_list.isEmpty then ⟨st, fs, .ok, []⟩
  else
    let j := ((st.current_index - 1) % (st.email_files_list.length : Int)).toNat
    load_email_file env st (st.email_files_list.getD j "") mime msgd fs

/-! ## Spec-side definitions

These transcribe claim wording, to be compared with the code-side
definitions above. -/

/-- Claim C1's selection policy as stated: an HTML candidate that exists
is used verbatim with `bodyIsHtml = true`; otherwise an existing plain
candidate is escaped and wrapped; otherwise the body is empty. -/
def specSelectBody (h p : Option String) : String × Bool :=
  match h with
  | some s => (s, true)
  | none =>
    match p with
    | some s => ("<pre>" ++ htmlEscape s ++ "</pre>", false)
    | none => ("", false)

/-- The plain-text and empty fallbacks of the amended C1 policy. -/
def specPlainChoice : Option String → String × Bool
  | some s => if s = "" then ("", false) else ("<pre>" ++ htmlEscape s ++ "</pre>", false)
  | none => ("", false)

/-- Amended C1 policy: only a non-empty candidate counts as present. -/
def specSelectBodyA (h p : Option String) : String × Bool :=
  match h with
  | some s => if s = "" then specPlainChoice p else (s, true)
  | none => specPlainChoice p

/-! ## Supporting lemmas: body selection -/

theorem selectBodyPV_str (h p : Option String) :
    selectBodyPV (h.map .str) (p.map .str) = .ok (selectBody h p).1 := by
  rcases h with _ | s <;> rcases p with _ | t <;>
    simp [selectBodyPV, selectBody, optPvTruthy, pvTruthy, strTruthy] <;>
    split_ifs <;> simp_all

/-- For a multipart message whose candidate walk succeeds with textual
candidates, `load_eml`'s body is exactly `selectBody` of the candidates. -/
theorem computeBody_multipart (m : Message) (h p : Option String)
    (hm : m.multipart = true)
    (hs : scanBody m.walkParts none none = some (h.map .str, p.map .str)) :
    computeBody m = .ok (selectBody h p).1 := by
  simp [computeBody, hm, hs, selectBodyPV_str]

/-! ## Claim C1 -/

/-- C1 counterexample: an HTML candidate that exists but is the empty
string is skipped by the code's truthiness test (`if html_body:` at
src/main.py:172), so the plain candidate is escaped and wrapped with
`bodyIsHtml = false`, while the claim demands the empty HTML candidate
verbatim with `bodyIsHtml = true`. -/
theorem C1_counterexample :
    selectBody (some "") (some "x") = ("<pre>x</pre>", false) ∧
    specSelectBody (some "") (some "x") = ("", true) ∧
    selectBody (some "") (some "x") ≠ specSelectBody (some "") (some "x") := by
  decide

/-- C1 (amended): for every pair of candidates, exactly one body
representation is produced in the fixed preference order, where a
candidate counts as present only when it is non-empty: a non-empty HTML
candidate is used verbatim with `bodyIsHtml = true`; otherwise a
non-empty plain candidate is escaped and wrapped with `bodyIsHtml =
false`; otherwise the body is the empty string with `bodyIsHtml =
false`. -/
theorem C1_amended (h p : Option String) : selectBody h p = specSelectBodyA h p := by
  rcases h with _ | s <;> rcases p with _ | t <;>
    simp [selectBody, specSelectBodyA, specPlainChoice, strTruthy]

/-! ## Supporting lemmas: navigation -/

theorem navNextN_idx (l : List String) (hne : l ≠ []) :
    ∀ (n : Nat) (i : Int), 0 ≤ i → i < (l.length : Int) →
      navNextN n ⟨l, i⟩ = ⟨l, (i + n) % (l.length : Int)⟩ := by
  have hk : (0 : Int) < (l.length : Int) := by
    exact_mod_cast List.length_pos.mpr hne
  intro n
  induction n with
  | zero =>
    intro i h0 h1
    simp [navNextN, Int.emod_eq_of_lt h0 h1]
  | succ n ih =>
    intro i h0 h1
    have hemp : l.isEmpty = false := by simpa [List.isEmpty_iff]
    have hj0 : 0 ≤ (i + 1) % (l.length : Int) := Int.emod_nonneg _ (by omega)
    have hj1 : (i + 1) % (l.length : Int) < (l.length : Int) := Int.emod_lt_of_pos _ hk
    have step : navNextN (n + 1) ⟨l, i⟩ = navNextN n ⟨l, (i + 1) % (l.length : Int)⟩ := by
      simp [navNextN, navNext, hemp]
    rw [step, ih _ hj0 hj1]
    congr 1
    rw [Int.emod_add_emod]
    congr 1
    omega

/-- `load_eml` never touches the navigation fields. -/
theorem load_eml_preserves_nav (env : Env) (st : ViewerState) (m : Message)
    (fs : List (String × List Nat)) :
    (load_eml env st m fs).st.email_files_list = st.email_files_list ∧
    (load_eml env st m fs).st.current_index = st.current_index := by
  cases hcb : computeBody m with
  | error e => simp [load_eml, hcb]
  | ok body =>
    rcases hpa : processAttachments env.tmpDir env.writeFails m.walkParts fs
        st.attachments st.attachItems with ⟨fs', am, items, err⟩
    cases err <;> simp [load_eml, hcb, hpa]

/-- `load_msg` never touches the navigation fields. -/
theorem load_msg_preserves_nav (env : Env) (st : ViewerState) (md : MsgData)
    (fs : List (String × List Nat)) :
    (load_msg env st md fs).st.email_files_list = st.email_files_list ∧
    (load_msg env st md fs).st.current_index = st.current_index := by
  rcases hpa : processMsgAttachments env.tmpDir env.writeFails md.attachments fs
      st.attachments st.attachItems [] with ⟨fs', am, items, log⟩
  simp [load_msg, hpa]

theorem findIdx?_getD (l : List String) (hnd : l.Nodup) (j : Nat) (hj : j < l.length) :
    findIdx? l (l.getD j "") = some j := by
  induction l generalizing j with
  | nil => simp at hj
  | cons y ys ih =>
    cases j with
    | zero => simp [findIdx?]
    | succ n =>
      have hn : n < ys.length := by simpa using hj
      have htarget : ys.getD n "" ∈ ys := by
        rw [List.getD_eq_getElem _ _ hn]
        exact List.getElem_mem hn
      have hy : y ≠ ys.getD n "" := fun h => (List.nodup_cons.mp hnd).1 (h ▸ htarget)
      have hih := ih (List.nodup_cons.mp hnd).2 n hn
      simp only [List.getD, List.get?_eq_getElem?] at hy hih ⊢
      simp [findIdx?, hy, hih]

/-- Derivation of `navNext` from the full model: when the directory
rescan reproduces the current (duplicate-free) list, `load_next` lands
on index `(i + 1) % k`, as the pure navigation step says. -/
theorem load_next_index (env : Env) (st : ViewerState) (mime : Message) (msgd : MsgData)
    (fs : List (String × List Nat))
    (hne : st.email_files_list ≠ [])
    (hnd : st.email_files_list.Nodup)
    (hL : rebuildList env.extractMsgAvail env.dirListing
        (dirnameOf (st.email_files_list.getD
          (((st.current_index + 1) % (st.email_files_list.length : Int)).toNat) "")) =
      st.email_files_list) :
    (load_next env st mime msgd fs).st.email_files_list = st.email_files_list ∧
    (load_next env st mime msgd fs).st.current_index =
      (st.current_index + 1) % (st.email_files_list.length : Int) := by
  have hk : (0 : Int) < (st.email_files_list.length : Int) := by
    exact_mod_cast List.length_pos.mpr hne
  have hemp : st.email_files_list.isEmpty = false := by simpa [List.isEmpty_iff]
  set j := ((st.current_index + 1) % (st.email_files_list.length : Int)).toNat with hjdef
  have hj0 : 0 ≤ (st.current_index + 1) % (st.email_files_list.length : Int) :=
    Int.emod_nonneg _ (by omega)
  have hjlt : j < st.email_files_list.length := by
    have := Int.emod_lt_of_pos (st.current_index + 1) hk
    omega
  set target := st.email_files_list.getD j "" with htdef
  have hidx : findIdx? st.email_files_list target = some j := findIdx?_getD _ hnd j hjlt
  have hIdxOr : indexOrNeg st.email_files_list target = (j : Int) := by
    simp [indexOrNeg, hidx]
  have hpre : (preDispatch env st target).email_files_list = st.email_files_list ∧
      (preDispatch env st target).current_index = (j : Int) := by
    simp [preDispatch, hL, hIdxOr]
  have hnav : (load_email_file env st target mime msgd fs).st.email_files_list =
        st.email_files_list ∧
      (load_email_file env st target mime msgd fs).st.current_index = (j : Int) := by
    unfold load_email_file
    by_cases he : lowerExt target = ".eml"
    · have h := load_eml_preserves_nav env (preDispatch env st target) mime fs
      rw [if_pos he]
      exact ⟨h.1.trans hpre.1, h.2.trans hpre.2⟩
    · by_cases hm : lowerExt target = ".msg"
      · by_cases ha : env.extractMsgAvail
        · have h := load_msg_preserves_nav env (preDispatch env st target) msgd fs
          rw [if_neg he, if_pos hm, if_pos ha]
          exact ⟨h.1.trans hpre.1, h.2.trans hpre.2⟩
        · rw [if_neg he, if_pos hm, if_neg ha]
          exact hpre
      · rw [if_neg he, if_neg hm]
        exact hpre
  have hload : load_next env st mime msgd fs = load_email_file env st target mime msgd fs := by
    unfold load_next
    rw [if_neg (by simp [hemp])]
  rw [hload]
  refine ⟨hnav.1, ?_⟩
  rw [hnav.2, hjdef]
  exact Int.toNat_of_nonneg hj0

/-! ## Claim C8 -/

/-- C8 counterexample: the sentinel index −1 (reachable: a recognized
directory listing with an opened path that the glob did not match) is a
navigation state with one file, yet one application of `next()` — the
list length — lands at index 0, not back at −1, contradicting the
claim's "applying next() k times returns to index i" for every state. -/
theorem C8_counterexample :
    navNextN (List.length ["a"]) ⟨["a"], -1⟩ = ⟨["a"], 0⟩ ∧
    (⟨["a"], 0⟩ : NavState) ≠ ⟨["a"], -1⟩ := by
  decide

/-- C8 (amended): with a list of k ≥ 1 files, `next()` moves to
`(i + 1) mod k` and `previous()` to `(i − 1) mod k` for every current
index i (including the sentinel −1, since Python's `%` is
non-negative), both are no-ops on an empty list, and `previous()` from
index 0 yields k − 1; applying `next()` k times returns to index i
provided i is an actual position, `0 ≤ i < k` (from the sentinel −1 it
lands on k − 1 instead). -/
theorem C8_amended (l : List String) (i : Int) :
    (navNext ⟨[], i⟩ = ⟨[], i⟩ ∧ navPrev ⟨[], i⟩ = ⟨[], i⟩)
    ∧ (l ≠ [] → (navNext ⟨l, i⟩).idx = (i + 1) % (l.length : Int)
        ∧ (navPrev ⟨l, i⟩).idx = (i - 1) % (l.length : Int))
    ∧ (l ≠ [] → 0 ≤ i → i < (l.length : Int) → navNextN l.length ⟨l, i⟩ = ⟨l, i⟩)
    ∧ (l ≠ [] → (navPrev ⟨l, 0⟩).idx = (l.length : Int) - 1) := by
  refine ⟨⟨by simp [navNext], by simp [navPrev]⟩, ?_, ?_, ?_⟩
  · intro hne
    have hemp : l.isEmpty = false := by simpa [List.isEmpty_iff]
    exact ⟨by simp [navNext, hemp], by simp [navPrev, hemp]⟩
  · intro hne h0 h1
    rw [navNextN_idx l hne l.length i h0 h1]
    have hk : (0 : Int) < (l.length : Int) := by exact_mod_cast List.length_pos.mpr hne
    have : (i + (l.length : Int)) % (l.length : Int) = i := by
      rw [show i + (l.length : Int) = i + (l.length : Int) * 1 by ring,
        Int.add_mul_emod_self_left]
      exact Int.emod_eq_of_lt h0 h1
    simp [this]
  · intro hne
    have hemp : l.isEmpty = false := by simpa [List.isEmpty_iff]
    have hk : (0 : Int) < (l.length : Int) := by exact_mod_cast List.length_pos.mpr hne
    have h1 : ((l.length : Int) - 1) % (l.length : Int) = (l.length : Int) - 1 :=
      Int.emod_eq_of_lt (by omega) (by omega)
    have h2 : ((l.length : Int) - 1) % (l.length : Int) = (-1 : Int) % (l.length : Int) := by
      rw [show ((l.length : Int) - 1) = -1 + (l.length : Int) * 1 by ring,
        Int.add_mul_emod_self_left]
    simp [navPrev, hemp]
    exact h2.symm.trans h1

/-- C8 witness: three files at position 1; three `next()` calls return
to position 1, and `previous()` from position 0 lands at position 2. -/
theorem C8_witness :
    navNextN 3 ⟨["a", "b", "c"], 1⟩ = ⟨["a", "b", "c"], 1⟩ ∧
    (navPrev ⟨["a", "b", "c"], 0⟩).idx = 2 := by
  refine ⟨?_, ?_⟩
  · have h := (C8_amended ["a", "b", "c"] 1).2.2.1 (by decide) (by decide) (by decide)
    simpa using h
  · have h := (C8_amended ["a", "b", "c"] 0).2.2.2 (by decide)
    simpa using h

/-! ## Concrete sample inputs used by counterexamples and witnesses -/

/-- A state in which an email was previously loaded successfully. -/
def stPrev : ViewerState :=
  { st0 with
    bodyHtml := "<p>old mail</p>", attachments := [("old.txt", "/tmp/old.txt")],
    attachItems := ["old.txt"], label_from := "From: old sender" }

/-- A trivial parsed .eml message, for arguments that are not consulted. -/
def mimeDummy : Message :=
  ⟨"", "", "", "", "", "", false, ⟨"text/plain", "", none, none, some (.str ""), []⟩, []⟩

/-- A trivial .msg container, for arguments that are not consulted. -/
def msgDummy : MsgData := ⟨none, none, none, none, none, none, none, none, []⟩

/-! ## Claim C2 -/

/-- C2 counterexample: opening an unrecognized `x.txt` while an email is
displayed ends in `UnrecognizedFormat`, yet the previously loaded
email's displayed body has already been replaced by the loading
placeholder and its attachment mapping cleared — partial state is
produced, contradicting the claim. -/
theorem C2_counterexample :
    (load_email_file ⟨["x.txt"], true, "/tmp", []⟩ stPrev "/d/x.txt" mimeDummy msgDummy
        []).outcome = .unrecognized ∧
    (load_email_file ⟨["x.txt"], true, "/tmp", []⟩ stPrev "/d/x.txt" mimeDummy msgDummy
        []).st.attachments = [] ∧
    (load_email_file ⟨["x.txt"], true, "/tmp", []⟩ stPrev "/d/x.txt" mimeDummy msgDummy
        []).st.bodyHtml = loadingMsg ∧
    stPrev.attachments ≠ [] ∧ stPrev.bodyHtml ≠ loadingMsg := by
  decide

/-- C2 (amended): an open that fails with `UnrecognizedFormat` or
`FormatUnsupported` leaves exactly the pre-dispatch state: the previous
email's six header labels are retained and the filesystem is untouched,
but the displayed body has been replaced by the loading placeholder and
the attachment mapping and list cleared (and the navigation state
rebuilt) — so the previous email is partially, deliberately,
overwritten rather than left intact. -/
theorem C2_amended (env : Env) (st : ViewerState) (path : String) (mime : Message)
    (msgd : MsgData) (fs : List (String × List Nat)) :
    (lowerExt path ≠ ".eml" → lowerExt path ≠ ".msg" →
      load_email_file env st path mime msgd fs =
        ⟨preDispatch env st path, fs, .unrecognized, []⟩)
    ∧ (lowerExt path = ".msg" → env.extractMsgAvail = false →
      load_email_file env st path mime msgd fs =
        ⟨preDispatch env st path, fs, .msgUnsupported, []⟩)
    ∧ (preDispatch env st path).label_from = st.label_from
    ∧ (preDispatch env st path).label_to = st.label_to
    ∧ (preDispatch env st path).label_cc = st.label_cc
    ∧ (preDispatch env st path).label_bcc = st.label_bcc
    ∧ (preDispatch env st path).label_subject = st.label_subject
    ∧ (preDispatch env st path).label_date = st.label_date
    ∧ (preDispatch env st path).attachments = []
    ∧ (preDispatch env st path).bodyHtml = loadingMsg := by
  refine ⟨?_, ?_, ?_, ?_, ?_, ?_, ?_, ?_, ?_, ?_⟩
  · intro h1 h2
    simp [load_email_file, h1, h2]
  · intro h1 h2
    simp [load_email_file, h1, h2]
  all_goals simp [preDispatch]

/-- C2 witness: the amended characterization applied to the concrete
unrecognized open of `/d/x.txt`. -/
theorem C2_witness :
    load_email_file ⟨["x.txt"], true, "/tmp", []⟩ stPrev "/d/x.txt" mimeDummy msgDummy [] =
      ⟨preDispatch ⟨["x.txt"], true, "/tmp", []⟩ stPrev "/d/x.txt", [], .unrecognized, []⟩ :=
  (C2_amended ⟨["x.txt"], true, "/tmp", []⟩ stPrev "/d/x.txt" mimeDummy msgDummy []).1
    (by decide) (by decide)

/-! ## Supporting lemmas: sorting and the navigator list -/

theorem lexLe_cons_iff (x y : Char) (xs ys : List Char) :
    lexLe (x :: xs) (y :: ys) = true ↔
      x.toNat < y.toNat ∨ (x.toNat = y.toNat ∧ lexLe xs ys = true) := by
  simp only [lexLe]
  split_ifs with h1 h2
  · simp [h1]
  · simp [h1, h2]
  · simp [h1, h2]

theorem lexLe_total (a b : List Char) : lexLe a b = true ∨ lexLe b a = true := by
  induction a generalizing b with
  | nil => left; rfl
  | cons x xs ih =>
    cases b with
    | nil => right; rfl
    | cons y ys =>
      rw [lexLe_cons_iff, lexLe_cons_iff]
      rcases Nat.lt_trichotomy x.toNat y.toNat with h | h | h
      · exact Or.inl (Or.inl h)
      · rcases ih ys with hl | hl
        · exact Or.inl (Or.inr ⟨h, hl⟩)
        · exact Or.inr (Or.inr ⟨h.symm, hl⟩)
      · exact Or.inr (Or.inl h)

theorem lexLe_trans (a b c : List Char) (h1 : lexLe a b = true) (h2 : lexLe b c = true) :
    lexLe a c = true := by
  induction a generalizing b c with
  | nil => rfl
  | cons x xs ih =>
    cases b with
    | nil => simp [lexLe] at h1
    | cons y ys =>
      cases c with
      | nil => simp [lexLe] at h2
      | cons z zs =>
        rw [lexLe_cons_iff] at h1 h2 ⊢
        rcases h1 with h1 | ⟨h1e, h1r⟩ <;> rcases h2 with h2 | ⟨h2e, h2r⟩
        · exact Or.inl (by omega)
        · exact Or.inl (by omega)
        · exact Or.inl (by omega)
        · exact Or.inr ⟨by omega, ih ys zs h1r h2r⟩

theorem leLower_total (a b : String) : leLower a b = true ∨ leLower b a = true :=
  lexLe_total _ _

theorem leLower_trans (a b c : String) (h1 : leLower a b = true) (h2 : leLower b c = true) :
    leLower a c = true :=
  lexLe_trans _ _ _ h1 h2

theorem insSorted_perm (x : String) (l : List String) :
    List.Perm (insSorted x l) (x :: l) := by
  induction l with
  | nil => rfl
  | cons y ys ih =>
    by_cases h : leLower y x
    · simpa [insSorted, h] using (ih.cons y).trans (List.Perm.swap x y ys)
    · simp [insSorted, h]

theorem sortByLower_foldl_perm (l acc : List String) :
    List.Perm (l.foldl (fun a x => insSorted x a) acc) (acc ++ l) := by
  induction l generalizing acc with
  | nil => simp
  | cons x xs ih =>
    have h1 : List.Perm (xs.foldl (fun a x => insSorted x a) (insSorted x acc))
        (insSorted x acc ++ xs) := ih _
    have h2 : List.Perm (insSorted x acc ++ xs) ((x :: acc) ++ xs) :=
      (insSorted_perm x acc).append_right xs
    have h3 : List.Perm ((x :: acc) ++ xs) (acc ++ x :: xs) := List.perm_middle.symm
    exact (h1.trans h2).trans h3

theorem sortByLower_perm (l : List String) : List.Perm (sortByLower l) l := by
  simpa [sortByLower] using sortByLower_foldl_perm l []

theorem pairwise_insSorted (x : String) (l : List String)
    (h : l.Pairwise (fun a b => leLower a b = true)) :
    (insSorted x l).Pairwise (fun a b => leLower a b = true) := by
  induction l with
  | nil => simp [insSorted]
  | cons y ys ih =>
    rcases List.pairwise_cons.mp h with ⟨hy, hys⟩
    by_cases hle : leLower y x
    · rw [insSorted, if_pos hle]
      refine List.pairwise_cons.mpr ⟨?_, ih hys⟩
      intro z hz
      rcases List.mem_cons.mp ((insSorted_perm x ys).mem_iff.mp hz) with rfl | hz'
      · exact hle
      · exact hy z hz'
    · rw [insSorted, if_neg hle]
      refine List.pairwise_cons.mpr ⟨?_, h⟩
      intro z hz
      have hxy : leLower x y = true := by
        rcases leLower_total y x with ht | ht
        · exact absurd ht hle
        · exact ht
      rcases List.mem_cons.mp hz with rfl | hz'
      · exact hxy
      · exact leLower_trans x y z hxy (hy z hz')

theorem sortByLower_pairwise_foldl (l acc : List String)
    (hacc : acc.Pairwise (fun a b => leLower a b = true)) :
    (l.foldl (fun a x => insSorted x a) acc).Pairwise (fun a b => leLower a b = true) := by
  induction l generalizing acc with
  | nil => simpa
  | cons x xs ih => exact ih _ (pairwise_insSorted x acc hacc)

theorem sortByLower_pairwise (l : List String) :
    (sortByLower l).Pairwise (fun a b => leLower a b = true) :=
  sortByLower_pairwise_foldl l [] (by simp)

theorem findIdx?_eq_none_iff (l : List String) (x : String) :
    findIdx? l x = none ↔ x ∉ l := by
  induction l with
  | nil => simp [findIdx?]
  | cons y ys ih =>
    by_cases h : y = x
    · simp [findIdx?, h]
    · have h2 : x ≠ y := fun hx => h hx.symm
      simp [findIdx?, h, ih, h2]

/-- `findIdx?` really reports a position of its argument. -/
theorem findIdx?_some_getD (l : List String) (x : String) (i : Nat)
    (h : findIdx? l x = some i) : i < l.length ∧ l.getD i "" = x := by
  induction l generalizing i with
  | nil => simp [findIdx?] at h
  | cons y ys ih =>
    by_cases hy : y = x
    · simp [findIdx?, hy] at h
      subst h
      exact ⟨Nat.succ_pos _, by simpa using hy⟩
    · simp [findIdx?, hy] at h
      rcases h with ⟨j, hj, rfl⟩
      rcases ih j hj with ⟨h1, h2⟩
      refine ⟨by simpa using Nat.succ_lt_succ h1, ?_⟩
      simpa [List.getD] using h2

/-- C9's notion of a recognized extension, as the dispatcher (and the
spec's §4.3) defines it: case-insensitive `.eml`, and `.msg` when the
container reader is available. -/
def specRecognized (avail : Bool) (name : String) : Bool :=
  lowerExt name = ".eml" ∨ (avail ∧ lowerExt name = ".msg")

/-! ## Claim C9 -/

/-- C9 counterexample: `A.EML` has a recognized extension — the very
same open dispatches it to the MIME reader — yet the glob patterns are
case-sensitive, so the rebuilt list omits it and the opened file's index
is the sentinel −1; a dotfile with a recognized extension is likewise
omitted because glob skips hidden names.  This contradicts "contains
exactly the files of the containing directory with recognized
extensions" and "currentIndex the position of the opened path if
present". -/
theorem C9_counterexample :
    specRecognized true "A.EML" = true ∧
    rebuildList true ["A.EML"] "/d" = [] ∧
    (preDispatch ⟨["A.EML"], true, "/tmp", []⟩ st0 "/d/A.EML").current_index = -1 ∧
    lowerExt "/d/A.EML" = ".eml" ∧
    specRecognized true ".hidden.eml" = true ∧
    rebuildList true [".hidden.eml"] "/d" = [] := by
  decide

/-- C9 (amended): on every open, the rebuilt list contains exactly the
full paths of the directory entries the glob patterns accept — names
that end in the literal lowercase `.eml`, plus `.msg` when the container
reader is available, and that do not start with a dot (so files with
upper-case or mixed-case extensions and dotfiles are excluded even
though the dispatcher would recognize them) — sorted case-insensitively
by full path, with `currentIndex` the first position of the opened path
if present and −1 otherwise. -/
theorem C9_amended (env : Env) (st : ViewerState) (path : String) :
    (∀ p : String,
      p ∈ (preDispatch env st path).email_files_list ↔
        ∃ n ∈ env.dirListing, p = ospJoin (dirnameOf path) n ∧
          (globMatch ".eml" n = true ∨
            (env.extractMsgAvail = true ∧ globMatch ".msg" n = true)))
    ∧ (preDispatch env st path).email_files_list.Pairwise (fun a b => leLower a b = true)
    ∧ (path ∉ (preDispatch env st path).email_files_list →
        (preDispatch env st path).current_index = -1)
    ∧ (∀ i : Nat, findIdx? (preDispatch env st path).email_files_list path = some i →
        (preDispatch env st path).current_index = (i : Int)) := by
  have hperm : List.Perm (rebuildList env.extractMsgAvail env.dirListing (dirnameOf path))
      (((env.dirListing.filter (fun n => globMatch ".eml" n)).map
          (fun n => ospJoin (dirnameOf path) n)) ++
        (if env.extractMsgAvail then
          (env.dirListing.filter (fun n => globMatch ".msg" n)).map
            (fun n => ospJoin (dirnameOf path) n)
        else [])) := by
    unfold rebuildList
    cases env.extractMsgAvail <;> simp [sortByLower_perm]
  refine ⟨?_, ?_, ?_, ?_⟩
  · intro p
    rw [show (preDispatch env st path).email_files_list =
        rebuildList env.extractMsgAvail env.dirListing (dirnameOf path) by
      simp [preDispatch]]
    rw [hperm.mem_iff]
    cases ha : env.extractMsgAvail <;> simp [List.mem_filter] <;> aesop
  · rw [show (preDispatch env st path).email_files_list =
        rebuildList env.extractMsgAvail env.dirListing (dirnameOf path) by
      simp [preDispatch]]
    exact sortByLower_pairwise _
  · intro hnotin
    have : findIdx? (preDispatch env st path).email_files_list path = none :=
      (findIdx?_eq_none_iff _ _).mpr hnotin
    simp only [preDispatch] at this ⊢
    simp [indexOrNeg, this]
  · intro i hi
    simp only [preDispatch] at hi ⊢
    simp [indexOrNeg, hi]

/-- C9 witness: the spec's own scenario — a directory with `a.eml`,
`B.eml`, `c.msg` and container support; opening `B.eml` yields the
case-insensitively sorted list at index 1. -/
theorem C9_witness :
    (preDispatch ⟨["a.eml", "B.eml", "c.msg"], true, "/tmp", []⟩ st0
        "/d/B.eml").current_index = 1 ∧
    (preDispatch ⟨["a.eml", "B.eml", "c.msg"], true, "/tmp", []⟩ st0
        "/d/B.eml").email_files_list = ["/d/a.eml", "/d/B.eml", "/d/c.msg"] := by
  refine ⟨?_, by decide⟩
  have h := (C9_amended ⟨["a.eml", "B.eml", "c.msg"], true, "/tmp", []⟩ st0
    "/d/B.eml").2.2.2 1 (by decide)
  simpa using h

/-! ## Supporting definitions and lemmas: body-candidate capture -/

/-- Claim C3's side condition, "a content-disposition indicating
attachment". -/
def dispIndicatesAttachment (p : Part) : Bool := p.contentDisposition = some "attachment"

/-- Claim C3's capture rule as stated: the first leaf part of the given
content type whose disposition does not indicate an attachment. -/
def specCandFirst (ty : String) (parts : List Part) : Option PyVal :=
  ((parts.filter (fun p => ¬ dispIndicatesAttachment p ∧ p.contentType = ty)).head?).bind
    (fun p => p.content)

/-- What the code actually keeps: the last part of the given content
type that has no content-disposition at all. -/
def lastCand (ty : String) (parts : List Part) : Option PyVal :=
  ((parts.filter (fun p => p.contentDisposition = none ∧ p.contentType = ty)).getLast?).bind
    (fun p => p.content)

/-- `b` unless `a` is present — how a later candidate overwrites an
earlier accumulator value. -/
def lastOr (a b : Option PyVal) : Option PyVal :=
  match a with
  | some v => some v
  | none => b

theorem lastOr_none (a : Option PyVal) : lastOr a none = a := by
  cases a <;> rfl

theorem lastCand_cons_neg (q : Part) (rest : List Part) (ty : String)
    (hq : ¬ (q.contentDisposition = none ∧ q.contentType = ty)) :
    lastCand ty (q :: rest) = lastCand ty rest := by
  unfold lastCand
  rw [List.filter_cons_of_neg (by simpa using hq)]

theorem lastCand_cons_pos (q : Part) (rest : List Part) (ty : String) (v : PyVal)
    (hd : q.contentDisposition = none) (ht : q.contentType = ty)
    (hv : q.content = some v)
    (hcont : ∀ p ∈ rest, p.contentDisposition = none → p.contentType = ty →
      p.content ≠ none) :
    lastCand ty (q :: rest) = lastOr (lastCand ty rest) (some v) := by
  have hfilter : (q :: rest).filter
        (fun p => p.contentDisposition = none ∧ p.contentType = ty) =
      q :: rest.filter (fun p => p.contentDisposition = none ∧ p.contentType = ty) :=
    List.filter_cons_of_pos (by simp [hd, ht])
  cases hfr : rest.filter (fun p => p.contentDisposition = none ∧ p.contentType = ty) with
  | nil =>
    have h1 : lastCand ty (q :: rest) = q.content := by
      unfold lastCand
      rw [hfilter, hfr]
      rfl
    have h2 : lastCand ty rest = none := by
      unfold lastCand
      rw [hfr]
      rfl
    rw [h1, h2, hv]
    rfl
  | cons a as =>
    have hlast : (a :: as).getLast? = some ((a :: as).getLast (by simp)) := by
      simp [List.getLast?_eq_getLast]
    have hmem : (a :: as).getLast (by simp) ∈ rest ∧
        ((a :: as).getLast (by simp)).contentDisposition = none ∧
        ((a :: as).getLast (by simp)).contentType = ty := by
      have h1 : (a :: as).getLast (by simp) ∈ a :: as := List.getLast_mem _
      have h2 : (a :: as).getLast (by simp) ∈
          rest.filter (fun p => p.contentDisposition = none ∧ p.contentType = ty) := by
        rw [hfr]
        exact h1
      have h3 := List.mem_filter.mp h2
      refine ⟨h3.1, ?_⟩
      simpa using h3.2
    rcases hc : ((a :: as).getLast (by simp)).content with _ | w
    · exact absurd hc (hcont _ hmem.1 hmem.2.1 hmem.2.2)
    · have h2 : lastCand ty rest = some w := by
        unfold lastCand
        rw [hfr, hlast]
        simpa using hc
      have h1 : lastCand ty (q :: rest) = some w := by
        unfold lastCand
        rw [hfilter, hfr, List.getLast?_cons_cons, hlast]
        simpa using hc
      rw [h1, h2]
      rfl

/-- The accumulator characterization of the candidate walk: it returns
the last qualifying occurrence of each type, falling back to the
initial accumulator, provided no scanned candidate part's
`get_content()` raises. -/
theorem scanBody_eq (parts : List Part) (h0 p0 : Option PyVal)
    (h : ∀ p ∈ parts, p.contentDisposition = none →
      (p.contentType = "text/html" ∨ p.contentType = "text/plain") → p.content ≠ none) :
    scanBody parts h0 p0 =
      some (lastOr (lastCand "text/html" parts) h0, lastOr (lastCand "text/plain" parts) p0) := by
  induction parts generalizing h0 p0 with
  | nil => simp [scanBody, lastCand, lastOr]
  | cons q rest ih =>
    have hrest : ∀ p ∈ rest, p.contentDisposition = none →
        (p.contentType = "text/html" ∨ p.contentType = "text/plain") → p.content ≠ none :=
      fun p hp => h p (List.mem_cons_of_mem q hp)
    by_cases hd : q.contentDisposition = none
    · by_cases hh : q.contentType = "text/html"
      · rcases hc : q.content with _ | v
        · exact absurd hc (h q (List.mem_cons_self q rest) hd (Or.inl hh))
        · have hstep : scanBody (q :: rest) h0 p0 = scanBody rest (some v) p0 := by
            simp [scanBody, hd, hh, hc]
          rw [hstep, ih _ _ hrest]
          have e1 : lastCand "text/html" (q :: rest) =
              lastOr (lastCand "text/html" rest) (some v) :=
            lastCand_cons_pos q rest _ v hd hh hc
              (fun p hp h1 h2 => hrest p hp h1 (Or.inl h2))
          have e2 : lastCand "text/plain" (q :: rest) = lastCand "text/plain" rest :=
            lastCand_cons_neg q rest _ (by simp [hh])
          rw [e1, e2]
          cases hlc : lastCand "text/html" rest <;> simp [lastOr]
      · by_cases hp : q.contentType = "text/plain"
        · rcases hc : q.content with _ | v
          · exact absurd hc (h q (List.mem_cons_self q rest) hd (Or.inr hp))
          · have hstep : scanBody (q :: rest) h0 p0 = scanBody rest h0 (some v) := by
              simp [scanBody, hd, hh, hp, hc]
            rw [hstep, ih _ _ hrest]
            have e1 : lastCand "text/html" (q :: rest) = lastCand "text/html" rest :=
              lastCand_cons_neg q rest _ (by simp [hh])
            have e2 : lastCand "text/plain" (q :: rest) =
                lastOr (lastCand "text/plain" rest) (some v) :=
              lastCand_cons_pos q rest _ v hd hp hc
                (fun p hpp h1 h2 => hrest p hpp h1 (Or.inr h2))
            rw [e1, e2]
            cases hlc : lastCand "text/plain" rest <;> simp [lastOr]
        · have hstep : scanBody (q :: rest) h0 p0 = scanBody rest h0 p0 := by
            simp [scanBody, hd, hh, hp]
          rw [hstep, ih _ _ hrest,
            lastCand_cons_neg q rest _ (by simp [hh]),
            lastCand_cons_neg q rest _ (by simp [hp])]
    · have hstep : scanBody (q :: rest) h0 p0 = scanBody rest h0 p0 := by
        simp [scanBody, hd]
      rw [hstep, ih _ _ hrest,
        lastCand_cons_neg q rest _ (by simp [hd]),
        lastCand_cons_neg q rest _ (by simp [hd])]

/-! ## Claim C3 -/

/-- Sample parts: two disposition-free HTML leaves, and one whose
disposition is `inline` (not an attachment). -/
def partHtmlA : Part := ⟨"text/html", "", none, none, some (.str "A"), []⟩

def partHtmlB : Part := ⟨"text/html", "", none, none, some (.str "B"), []⟩

def partHtmlInline : Part := ⟨"text/html", "inline", some "inline", none, some (.str "I"), []⟩

/-- C3 counterexample: with two qualifying HTML parts the code keeps the
last, not the first; and a part whose disposition is `inline` — which
does not indicate an attachment, so the claim captures it — is skipped
entirely because the code requires `get_content_disposition() is None`
(src/main.py:167). -/
theorem C3_counterexample :
    scanBody [partHtmlA, partHtmlB] none none = some (some (.str "B"), none) ∧
    specCandFirst "text/html" [partHtmlA, partHtmlB] = some (.str "A") ∧
    scanBody [partHtmlInline] none none = some (none, none) ∧
    specCandFirst "text/html" [partHtmlInline] = some (.str "I") := by
  decide

/-- C3 (amended): among the walked parts with no content-disposition at
all (parts with any disposition, even `inline`, are skipped), the HTML
candidate is the last `text/html` occurrence — later occurrences
overwrite earlier ones — and likewise the plain candidate is the last
`text/plain` occurrence, provided no scanned candidate part's decoding
raises. -/
theorem C3_amended (parts : List Part)
    (h : ∀ p ∈ parts, p.contentDisposition = none →
      (p.contentType = "text/html" ∨ p.contentType = "text/plain") → p.content ≠ none) :
    scanBody parts none none =
      some (lastCand "text/html" parts, lastCand "text/plain" parts) := by
  rw [scanBody_eq parts none none h, lastOr_none, lastOr_none]

/-- C3 witness: the amended rule evaluated on the two-part sample. -/
theorem C3_witness :
    scanBody [partHtmlA, partHtmlB] none none =
      some (lastCand "text/html" [partHtmlA, partHtmlB],
        lastCand "text/plain" [partHtmlA, partHtmlB]) :=
  C3_amended [partHtmlA, partHtmlB] (by decide)

/-! ## Claim C4 -/

/-- A multipart container part, as the root of a multipart message.
Its content is never consulted by the code (`multipart/*` matches
neither candidate type and carries no attachment disposition). -/
def rootMulti : Part := ⟨"multipart/mixed", "", none, none, none, []⟩

/-- A `text/plain` body part whose `get_content()` raises. -/
def partPlainBad : Part := ⟨"text/plain", "", none, none, none, []⟩

/-- A well-formed binary attachment part named `f.bin`. -/
def partAttachF : Part :=
  ⟨"application/pdf", "attachment; filename=f.bin", some "attachment", some "f.bin",
    some (.bytes [7]), [7]⟩

/-- A multipart message with one undecodable part before a good HTML
part and a good attachment. -/
def msgBadPart : Message :=
  ⟨"", "", "", "", "", "", true, rootMulti, [partPlainBad, partHtmlB, partAttachF]⟩

/-- The same message with the undecodable part removed. -/
def msgGoodPart : Message :=
  ⟨"", "", "", "", "", "", true, rootMulti, [partHtmlB, partAttachF]⟩

/-- Any qualifying part whose `get_content()` raises aborts the whole
candidate walk, wherever it sits. -/
theorem scanBody_none_of_bad (parts : List Part) :
    ∀ (h0 p0 : Option PyVal) (q : Part), q ∈ parts → q.contentDisposition = none →
      (q.contentType = "text/html" ∨ q.contentType = "text/plain") → q.content = none →
      scanBody parts h0 p0 = none := by
  induction parts with
  | nil =>
    intro h0 p0 q hq
    simp at hq
  | cons r rest ih =>
    intro h0 p0 q hq hd hty hc
    rcases List.mem_cons.mp hq with rfl | hq'
    · rcases hty with h | h <;> simp [scanBody, hd, h, hc]
    · by_cases hrd : r.contentDisposition = none
      · by_cases hrh : r.contentType = "text/html"
        · rcases hrc : r.content with _ | v
          · simp [scanBody, hrd, hrh, hrc]
          · simpa [scanBody, hrd, hrh, hrc] using ih _ p0 q hq' hd hty hc
        · by_cases hrp : r.contentType = "text/plain"
          · rcases hrc : r.content with _ | v
            · simp [scanBody, hrd, hrh, hrp, hrc]
            · simpa [scanBody, hrd, hrh, hrp, hrc] using ih h0 _ q hq' hd hty hc
          · simpa [scanBody, hrd, hrh, hrp] using ih h0 p0 q hq' hd hty hc
      · simpa [scanBody, hrd] using ih h0 p0 q hq' hd hty hc

/-- C4 counterexample: one undecodable `text/plain` part makes the
whole `.eml` open raise — nothing is displayed and the attachment of a
later, perfectly good part is not materialized — while the same message
without the bad part renders its HTML body and materializes `f.bin`.
The claim demanded that the bad part be skipped with the rest still
producing body and attachments. -/
theorem C4_counterexample :
    (load_eml ⟨[], true, "/tmp", []⟩ st0 msgBadPart []).outcome = .raised .decodeFail ∧
    (load_eml ⟨[], true, "/tmp", []⟩ st0 msgBadPart []).st.attachments = [] ∧
    (load_eml ⟨[], true, "/tmp", []⟩ st0 msgBadPart []).fs = [] ∧
    (load_eml ⟨[], true, "/tmp", []⟩ st0 msgGoodPart []).outcome = .ok ∧
    (load_eml ⟨[], true, "/tmp", []⟩ st0 msgGoodPart []).st.bodyHtml = "B" ∧
    List.lookup "f.bin" (load_eml ⟨[], true, "/tmp", []⟩ st0 msgGoodPart []).st.attachments =
      some "/tmp/f.bin" := by
  decide

/-- C4 (amended): there is no part-level resilience in `load_eml` — a
decoding failure on any body-candidate part (anywhere in the walk)
aborts the entire `.eml` open with an uncaught error, leaving no body
and no attachments materialized; the only skip-and-continue behaviour
is an attachment-tagged part without a filename, which the loop passes
over.  No `MalformedMessage` condition exists: the lenient top-level
parse is modelled as total, and the code never reports a parse-level
failure. -/
theorem C4_amended :
    (∀ (env : Env) (st : ViewerState) (m : Message) (fs : List (String × List Nat)),
      m.multipart = true → scanBody m.walkParts none none = none →
      (load_eml env st m fs).outcome = .raised .decodeFail ∧
      (load_eml env st m fs).st.attachments = st.attachments ∧
      (load_eml env st m fs).st.bodyHtml = st.bodyHtml ∧
      (load_eml env st m fs).fs = fs)
    ∧ (∀ (parts : List Part) (h0 p0 : Option PyVal) (q : Part),
        q ∈ parts → q.contentDisposition = none →
        (q.contentType = "text/html" ∨ q.contentType = "text/plain") → q.content = none →
        scanBody parts h0 p0 = none)
    ∧ (∀ (tmp : String) (wf : List String) (rest : List Part)
        (fs : List (String × List Nat)) (am : List (String × String)) (items : List String)
        (p : Part), attachmentTagged p = true → strTruthy p.filename = false →
        processAttachments tmp wf (p :: rest) fs am items =
          processAttachments tmp wf rest fs am items) := by
  refine ⟨?_, scanBody_none_of_bad, ?_⟩
  · intro env st m fs hm hscan
    have hcb : computeBody m = .error .decodeFail := by
      simp [computeBody, hm, hscan]
    simp [load_eml, hcb]
  · intro tmp wf rest fs am items p h1 h2
    simp [processAttachments, h1, h2]

/-- C4 witness: the amended abort behaviour instantiated on the sample
message, plus the skip of a filename-less attachment part. -/
theorem C4_witness :
    (load_eml ⟨[], true, "/tmp", []⟩ st0 msgBadPart []).outcome = .raised .decodeFail ∧
    processAttachments "/tmp" [] [⟨"application/pdf", "attachment", some "attachment",
        none, none, []⟩] [] [] [] =
      processAttachments "/tmp" [] [] [] [] [] := by
  refine ⟨(C4_amended.1 ⟨[], true, "/tmp", []⟩ st0 msgBadPart [] (by decide) (by decide)).1, ?_⟩
  exact C4_amended.2.2 "/tmp" [] [] [] [] []
    ⟨"application/pdf", "attachment", some "attachment", none, none, []⟩
    (by decide) (by decide)

/-! ## Supporting lemmas: attachment maps -/

theorem dictInsert_lookup (k v x : String) (m : List (String × String)) :
    List.lookup x (dictInsert k v m) = if x = k then some v else List.lookup x m := by
  induction m with
  | nil =>
    by_cases hx : x = k
    · simp [dictInsert, List.lookup, hx]
    · have hb : (x == k) = false := beq_eq_false_iff_ne.mpr hx
      simp [dictInsert, List.lookup, hx, hb]
  | cons e rest ih =>
    rcases e with ⟨k', v'⟩
    by_cases h : k' = k
    · subst h
      by_cases hx : x = k'
      · simp [dictInsert, List.lookup, hx]
      · have hb : (x == k') = false := beq_eq_false_iff_ne.mpr hx
        simp [dictInsert, List.lookup, hx, hb]
    · by_cases hx : x = k'
      · have hxk : ¬ x = k := fun hk => h (hx.symm.trans hk)
        have hb : (x == k') = true := beq_iff_eq.mpr hx
        simp [dictInsert, List.lookup, h, hb, hxk]
      · have hb : (x == k') = false := beq_eq_false_iff_ne.mpr hx
        simp [dictInsert, List.lookup, h, hb, ih]

/-- Log entries are never dropped by the .msg attachment loop. -/
theorem processMsg_log_mono (tmp : String) (wf : List String) (l : List MsgAttachment) :
    ∀ (fs : List (String × List Nat)) (am : List (String × String))
      (items log : List String) (x : String), x ∈ log →
      x ∈ (processMsgAttachments tmp wf l fs am items log).2.2.2 := by
  induction l with
  | nil =>
    intro fs am items log x hx
    simpa [processMsgAttachments] using hx
  | cons a rest ih =>
    intro fs am items log x hx
    cases ha : msgEffName a with
    | none => simpa [processMsgAttachments, ha] using ih fs am items log x hx
    | some fn =>
      by_cases hw : ospJoin tmp fn ∈ wf
      · simpa [processMsgAttachments, ha, hw] using
          ih fs am items (log ++ [fn]) x (List.mem_append_left _ hx)
      · simpa [processMsgAttachments, ha, hw] using ih _ _ _ log x hx

/-- A key already bound to its canonical path stays so bound. -/
theorem processMsg_am_stable (tmp : String) (wf : List String) (l : List MsgAttachment) :
    ∀ (fs : List (String × List Nat)) (am : List (String × String))
      (items log : List String) (fn : String),
      List.lookup fn am = some (ospJoin tmp fn) →
      List.lookup fn (processMsgAttachments tmp wf l fs am items log).2.1 =
        some (ospJoin tmp fn) := by
  induction l with
  | nil =>
    intro fs am items log fn h
    simpa [processMsgAttachments] using h
  | cons a rest ih =>
    intro fs am items log fn h
    cases ha : msgEffName a with
    | none => simpa [processMsgAttachments, ha] using ih fs am items log fn h
    | some fnb =>
      by_cases hw : ospJoin tmp fnb ∈ wf
      · simpa [processMsgAttachments, ha, hw] using ih fs am items _ fn h
      · have hnew : List.lookup fn (dictInsert fnb (ospJoin tmp fnb) am) =
            some (ospJoin tmp fn) := by
          rw [dictInsert_lookup]
          by_cases hfn : fn = fnb
          · subst hfn
            simp
          · simp [hfn, h]
        simpa [processMsgAttachments, ha, hw] using ih _ _ _ log fn hnew

/-- The per-attachment guarantee of the .msg loop: a failing write is
logged under the attachment's effective filename and the loop
continues; a successful write leaves the filename bound to its
temporary path in the final map. -/
theorem processMsg_spec (tmp : String) (wf : List String) (l : List MsgAttachment) :
    ∀ (fs : List (String × List Nat)) (am : List (String × String))
      (items log : List String), ∀ a ∈ l, ∀ fn : String, msgEffName a = some fn →
      (ospJoin tmp fn ∈ wf → fn ∈ (processMsgAttachments tmp wf l fs am items log).2.2.2) ∧
      (ospJoin tmp fn ∉ wf →
        List.lookup fn (processMsgAttachments tmp wf l fs am items log).2.1 =
          some (ospJoin tmp fn)) := by
  induction l with
  | nil =>
    intro fs am items log a ha
    simp at ha
  | cons b rest ih =>
    intro fs am items log a ha fn hfn
    rcases List.mem_cons.mp ha with rfl | ha'
    · by_cases hw : ospJoin tmp fn ∈ wf
      · refine ⟨fun _ => ?_, fun hnw => absurd hw hnw⟩
        simpa [processMsgAttachments, hfn, hw] using
          processMsg_log_mono tmp wf rest fs am items (log ++ [fn]) fn
            (List.mem_append_right _ (by simp))
      · refine ⟨fun hw' => absurd hw' hw, fun _ => ?_⟩
        have hbase : List.lookup fn (dictInsert fn (ospJoin tmp fn) am) =
            some (ospJoin tmp fn) := by
          rw [dictInsert_lookup]
          simp
        simpa [processMsgAttachments, hfn, hw] using
          processMsg_am_stable tmp wf rest _ _ _ log fn hbase
    · cases hb : msgEffName b with
      | none =>
        simpa [processMsgAttachments, hb] using ih fs am items log a ha' fn hfn
      | some fnb =>
        by_cases hwb : ospJoin tmp fnb ∈ wf
        · simpa [processMsgAttachments, hb, hwb] using ih fs am items _ a ha' fn hfn
        · simpa [processMsgAttachments, hb, hwb] using ih _ _ _ log a ha' fn hfn

/-! ## Claim C5 -/

/-- An attachment-tagged binary part named `a1.bin`. -/
def partAtt1 : Part :=
  ⟨"application/octet-stream", "attachment; filename=a1.bin", some "attachment",
    some "a1.bin", some (.bytes [1]), [1]⟩

/-- An attachment-tagged binary part named `a2.bin`. -/
def partAtt2 : Part :=
  ⟨"application/octet-stream", "attachment; filename=a2.bin", some "attachment",
    some "a2.bin", some (.bytes [2]), [2]⟩

/-- A multipart .eml message carrying the two attachments. -/
def msgTwoAtt : Message := ⟨"", "", "", "", "", "", true, rootMulti, [partAtt1, partAtt2]⟩

/-- A .msg container carrying two attachments with the same names. -/
def msgdTwoAtt : MsgData :=
  ⟨none, none, none, none, none, none, none, none,
    [⟨some "a1.bin", none, [1]⟩, ⟨some "a2.bin", none, [2]⟩]⟩

/-- C5 counterexample: the claim covers every email, but in the `.eml`
loader a failing write for the first attachment raises out of the
un-guarded loop — the open does not succeed and the remaining
attachment is never materialized. -/
theorem C5_counterexample :
    (load_eml ⟨[], true, "/tmp", ["/tmp/a1.bin"]⟩ st0 msgTwoAtt []).outcome =
      .raised (.writeFail "/tmp/a1.bin") ∧
    List.lookup "a2.bin"
      (load_eml ⟨[], true, "/tmp", ["/tmp/a1.bin"]⟩ st0 msgTwoAtt []).st.attachments = none ∧
    (load_eml ⟨[], true, "/tmp", ["/tmp/a1.bin"]⟩ st0 msgTwoAtt []).fs = [] := by
  decide

/-- C5 (amended): the per-attachment tolerance holds for the `.msg`
loader only — there, a write failure is reported (logged) for that
attachment alone, every attachment whose write does not fail is still
materialized under its temporary path, and the load itself still ends
in `Ok`; in the `.eml` loader a write failure instead aborts the whole
open (see the counterexample). -/
theorem C5_amended (env : Env) (st : ViewerState) (md : MsgData)
    (fs : List (String × List Nat)) :
    (load_msg env st md fs).outcome = .ok ∧
    (∀ a ∈ md.attachments, ∀ fn : String, msgEffName a = some fn →
      (ospJoin env.tmpDir fn ∈ env.writeFails → fn ∈ (load_msg env st md fs).log) ∧
      (ospJoin env.tmpDir fn ∉ env.writeFails →
        List.lookup fn (load_msg env st md fs).st.attachments =
          some (ospJoin env.tmpDir fn))) := by
  rcases hpa : processMsgAttachments env.tmpDir env.writeFails md.attachments fs
      st.attachments st.attachItems [] with ⟨fs', am, items, log⟩
  refine ⟨by simp [load_msg, hpa], ?_⟩
  intro a ha fn hfn
  have h := processMsg_spec env.tmpDir env.writeFails md.attachments fs
    st.attachments st.attachItems [] a ha fn hfn
  rw [hpa] at h
  exact ⟨fun hw => by simpa [load_msg, hpa] using h.1 hw,
    fun hw => by simpa [load_msg, hpa] using h.2 hw⟩

/-- C5 witness: in the .msg loader, with `a1.bin`'s write failing, the
failure is logged for `a1.bin` while `a2.bin` is still materialized and
the load ends in `Ok`. -/
theorem C5_witness :
    (load_msg ⟨[], true, "/tmp", ["/tmp/a1.bin"]⟩ st0 msgdTwoAtt []).outcome = .ok ∧
    "a1.bin" ∈ (load_msg ⟨[], true, "/tmp", ["/tmp/a1.bin"]⟩ st0 msgdTwoAtt []).log ∧
    List.lookup "a2.bin"
      (load_msg ⟨[], true, "/tmp", ["/tmp/a1.bin"]⟩ st0 msgdTwoAtt []).st.attachments =
      some "/tmp/a2.bin" := by
  have h := C5_amended ⟨[], true, "/tmp", ["/tmp/a1.bin"]⟩ st0 msgdTwoAtt []
  refine ⟨h.1, ?_, ?_⟩
  · exact (h.2 ⟨some "a1.bin", none, [1]⟩ (by decide) "a1.bin" (by decide)).1 (by decide)
  · have := (h.2 ⟨some "a2.bin", none, [2]⟩ (by decide) "a2.bin" (by decide)).2 (by decide)
    simpa using this

/-! ## Supporting lemmas: the .eml materializer as a write sequence -/

/-- The attachment descriptors (filename, payload) the .eml loop
materializes, in walk order. -/
def attachDescriptors (parts : List Part) : List (String × List Nat) :=
  parts.filterMap (fun p =>
    if attachmentTagged p && strTruthy p.filename then
      some (p.filename.getD "", p.payloadDecoded)
    else none)

/-- With no failing writes, the .eml loop performs exactly the writes of
its descriptors in order, folds them into the dict, and appends their
names to the item list. -/
theorem processAttachments_noFail (tmp : String) (parts : List Part) :
    ∀ (fs : List (String × List Nat)) (am : List (String × String)) (items : List String),
      processAttachments tmp [] parts fs am items =
        (((attachDescriptors parts).map (fun d => (ospJoin tmp d.1, d.2))).reverse ++ fs,
          (attachDescriptors parts).foldl (fun m d => dictInsert d.1 (ospJoin tmp d.1) m) am,
          items ++ (attachDescriptors parts).map (fun d => d.1),
          none) := by
  induction parts with
  | nil => intro fs am items; simp [processAttachments, attachDescriptors]
  | cons q rest ih =>
    intro fs am items
    by_cases h1 : attachmentTagged q
    · by_cases h2 : strTruthy q.filename
      · have hdesc : attachDescriptors (q :: rest) =
            (q.filename.getD "", q.payloadDecoded) :: attachDescriptors rest := by
          simp [attachDescriptors, h1, h2]
        rw [hdesc]
        have hstep : processAttachments tmp [] (q :: rest) fs am items =
            processAttachments tmp [] rest
              (fsWrite fs (ospJoin tmp (q.filename.getD "")) q.payloadDecoded)
              (dictInsert (q.filename.getD "") (ospJoin tmp (q.filename.getD "")) am)
              (items ++ [q.filename.getD ""]) := by
          simp [processAttachments, h1, h2]
        rw [hstep, ih]
        simp [fsWrite]
      · have hdesc : attachDescriptors (q :: rest) = attachDescriptors rest := by
          simp [attachDescriptors, h1, h2]
        have hstep : processAttachments tmp [] (q :: rest) fs am items =
            processAttachments tmp [] rest fs am items := by
          simp [processAttachments, h1, h2]
        rw [hdesc, hstep, ih]
    · have hdesc : attachDescriptors (q :: rest) = attachDescriptors rest := by
        simp [attachDescriptors, h1]
      have hstep : processAttachments tmp [] (q :: rest) fs am items =
          processAttachments tmp [] rest fs am items := by
        simp [processAttachments, h1]
      rw [hdesc, hstep, ih]

/-- Reading a path after a sequence of writes (most recent first)
returns the last write to that path, falling back to the prior
filesystem. -/
theorem lookup_reverse_append (k : String) (l fs : List (String × List Nat)) :
    List.lookup k (l.reverse ++ fs) =
      match (l.filter (fun q => q.1 = k)).getLast? with
      | some q => some q.2
      | none => List.lookup k fs := by
  induction l generalizing fs with
  | nil => simp
  | cons x xs ih =>
    rcases x with ⟨x1, x2⟩
    have hstep : ((x1, x2) :: xs).reverse ++ fs = xs.reverse ++ ((x1, x2) :: fs) := by
      simp
    rw [hstep, ih ((x1, x2) :: fs)]
    by_cases hx : x1 = k
    · have hbeq : (k == x1) = true := beq_iff_eq.mpr hx.symm
      rw [List.filter_cons_of_pos (by simpa using hx)]
      cases hfx : xs.filter (fun q => q.1 = k) with
      | nil => simp [List.lookup, hbeq]
      | cons a as =>
        have hg : (a :: as).getLast? = some ((a :: as).getLast (by simp)) := by
          simp [List.getLast?_eq_getLast]
        rw [List.getLast?_cons_cons, hg]
    · have hbeq : (k == x1) = false := beq_eq_false_iff_ne.mpr (fun h => hx h.symm)
      rw [List.filter_cons_of_neg (by simpa using hx)]
      cases hfx : xs.filter (fun q => q.1 = k) with
      | nil => simp [List.lookup, hbeq]
      | cons a as =>
        have hg : (a :: as).getLast? = some ((a :: as).getLast (by simp)) := by
          simp [List.getLast?_eq_getLast]
        rw [hg]

/-- Looking up a filename after folding descriptor insertions. -/
theorem foldl_dictInsert_lookup (tmp : String) (ds : List (String × List Nat)) :
    ∀ (am : List (String × String)) (fn : String),
      List.lookup fn (ds.foldl (fun m d => dictInsert d.1 (ospJoin tmp d.1) m) am) =
        if fn ∈ ds.map (fun d => d.1) then some (ospJoin tmp fn) else List.lookup fn am := by
  induction ds with
  | nil => intro am fn; simp
  | cons d rest ih =>
    intro am fn
    rw [List.foldl_cons, ih]
    by_cases hmem : fn ∈ rest.map (fun d => d.1)
    · simp [hmem]
    · by_cases hfn : fn = d.1
      · simp [hmem, hfn, dictInsert_lookup]
      · simp [hmem, hfn, dictInsert_lookup]

/-! ## Claim C7 -/

/-- An attachment part named `a`. -/
def partAttA : Part :=
  ⟨"application/octet-stream", "attachment; filename=a", some "attachment",
    some "a", some (.bytes [1]), [1]⟩

/-- An attachment part whose filename is the absolute path `/tmp/a`;
`os.path.join` then discards the temp directory. -/
def partAttAbs : Part :=
  ⟨"application/octet-stream", "attachment; filename=x", some "attachment",
    some "/tmp/a", some (.bytes [2]), [2]⟩

/-- C7 counterexample: two differently named attachments can
materialize to the same path (`os.path.join("/tmp", "/tmp/a") =
"/tmp/a"`), so reading the path mapped for filename `a` yields the
bytes of the *other* descriptor, not of the last descriptor bearing
filename `a` as the claim states. -/
theorem C7_counterexample :
    List.lookup "a" (processAttachments "/tmp" [] [partAttA, partAttAbs] [] [] []).2.1 =
      some "/tmp/a" ∧
    ((attachDescriptors [partAttA, partAttAbs]).filter (fun d => d.1 = "a")).getLast? =
      some ("a", [1]) ∧
    List.lookup "/tmp/a" (processAttachments "/tmp" [] [partAttA, partAttAbs] [] [] []).1 =
      some [2] ∧
    ([1] : List Nat) ≠ [2] := by
  decide

/-- C7 (amended): after materializing an email's attachment descriptors
in order (with no write failures, starting from a cleared map), every
filename in the resulting filename → path map is mapped to
`os.path.join(tmpdir, filename)`, and reading that path yields
byte-for-byte the data of the last descriptor whose filename resolves
(via the join) to the same path.  When no two distinct filenames
resolve to the same path — in particular for plain relative names —
this is the last descriptor bearing that filename, and a uniquely named
attachment reads back exactly its own bytes. -/
theorem C7_amended (tmp : String) (parts : List Part) (fs : List (String × List Nat))
    (fn path : String)
    (hl : List.lookup fn (processAttachments tmp [] parts fs [] []).2.1 = some path) :
    path = ospJoin tmp fn ∧
    ∃ d : String × List Nat,
      ((attachDescriptors parts).filter (fun q => ospJoin tmp q.1 = path)).getLast? =
        some d ∧
      List.lookup path (processAttachments tmp [] parts fs [] []).1 = some d.2 := by
  have ham : (processAttachments tmp [] parts fs [] []).2.1 =
      (attachDescriptors parts).foldl (fun m d => dictInsert d.1 (ospJoin tmp d.1) m) [] := by
    rw [processAttachments_noFail]
  have hfs : (processAttachments tmp [] parts fs [] []).1 =
      ((attachDescriptors parts).map (fun d => (ospJoin tmp d.1, d.2))).reverse ++ fs := by
    rw [processAttachments_noFail]
  rw [ham, foldl_dictInsert_lookup] at hl
  by_cases hmem : fn ∈ (attachDescriptors parts).map (fun d => d.1)
  · rw [if_pos hmem] at hl
    have hpath : path = ospJoin tmp fn := by
      injection hl with h
      exact h.symm
    subst hpath
    refine ⟨rfl, ?_⟩
    have hfilter : ((attachDescriptors parts).map
          (fun d => (ospJoin tmp d.1, d.2))).filter (fun q => q.1 = ospJoin tmp fn) =
        ((attachDescriptors parts).filter (fun q => ospJoin tmp q.1 = ospJoin tmp fn)).map
          (fun d => (ospJoin tmp d.1, d.2)) := by
      rw [List.filter_map]
      rfl
    have hne : (attachDescriptors parts).filter
        (fun q => ospJoin tmp q.1 = ospJoin tmp fn) ≠ [] := by
      rcases List.mem_map.mp hmem with ⟨d, hd, hdfn⟩
      intro hnil
      have hdin : d ∈ (attachDescriptors parts).filter
          (fun q => ospJoin tmp q.1 = ospJoin tmp fn) :=
        List.mem_filter.mpr ⟨hd, by simp [hdfn]⟩
      rw [hnil] at hdin
      simp at hdin
    obtain ⟨d, hd⟩ := Option.isSome_iff_exists.mp (List.getLast?_isSome.mpr hne)
    refine ⟨d, hd, ?_⟩
    rw [hfs, lookup_reverse_append, hfilter, List.getLast?_map, hd]
    rfl
  · rw [if_neg hmem] at hl
    simp at hl

/-- First of two attachments both named `image.png` (spec §8 scenario). -/
def partImg1 : Part :=
  ⟨"image/png", "attachment; filename=image.png", some "attachment",
    some "image.png", some (.bytes [1]), [1]⟩

/-- Second `image.png`; its bytes must be the ones read back. -/
def partImg2 : Part :=
  ⟨"image/png", "attachment; filename=image.png", some "attachment",
    some "image.png", some (.bytes [2]), [2]⟩

/-- A uniquely named attachment with two bytes of content. -/
def partReport : Part :=
  ⟨"application/pdf", "attachment; filename=report.pdf", some "attachment",
    some "report.pdf", some (.bytes [9, 8]), [9, 8]⟩

/-- C7 witness: the amended round trip applied to the duplicate
`image.png` pair — the mapped path reads back the second descriptor's
bytes — and to the uniquely named `report.pdf`, which reads back
exactly its own two bytes. -/
theorem C7_witness :
    ("/tmp/image.png" = ospJoin "/tmp" "image.png" ∧
      ∃ d : String × List Nat,
        ((attachDescriptors [partImg1, partImg2, partReport]).filter
            (fun q => ospJoin "/tmp" q.1 = "/tmp/image.png")).getLast? = some d ∧
        List.lookup "/tmp/image.png"
          (processAttachments "/tmp" [] [partImg1, partImg2, partReport] [] [] []).1 =
          some d.2) ∧
    ("/tmp/report.pdf" = ospJoin "/tmp" "report.pdf" ∧
      ∃ d : String × List Nat,
        ((attachDescriptors [partImg1, partImg2, partReport]).filter
            (fun q => ospJoin "/tmp" q.1 = "/tmp/report.pdf")).getLast? = some d ∧
        List.lookup "/tmp/report.pdf"
          (processAttachments "/tmp" [] [partImg1, partImg2, partReport] [] [] []).1 =
          some d.2) :=
  ⟨C7_amended "/tmp" [partImg1, partImg2, partReport] [] "image.png" "/tmp/image.png"
      (by decide),
    C7_amended "/tmp" [partImg1, partImg2, partReport] [] "report.pdf" "/tmp/report.pdf"
      (by decide)⟩

/-! ## Supporting lemmas: where a joined path resolves -/

theorem splitSlashAux_append (xs ys : List Char) :
    ∀ acc, splitSlashAux (xs ++ '/' :: ys) acc =
      splitSlashAux xs acc ++ splitSlashAux ys [] := by
  induction xs with
  | nil => intro acc; simp [splitSlashAux]
  | cons c rest ih =>
    intro acc
    by_cases hc : c = '/'
    · simp [splitSlashAux, hc, ih]
    · simp [splitSlashAux, hc, ih]

theorem splitSlashAux_noSlash (ys : List Char) (h : '/' ∉ ys) :
    ∀ acc, splitSlashAux ys acc = [String.mk (acc.reverse ++ ys)] := by
  induction ys with
  | nil => intro acc; simp [splitSlashAux]
  | cons c rest ih =>
    intro acc
    have hc : ¬ c = '/' := fun hc => h (hc ▸ List.mem_cons_self c rest)
    have hrest : '/' ∉ rest := fun hr => h (List.mem_cons_of_mem c hr)
    simp [splitSlashAux, hc, ih hrest]

theorem normComps_append_single (A : List String) (fn : String)
    (h1 : fn ≠ "") (h2 : fn ≠ ".") (h3 : fn ≠ "..") :
    normComps (A ++ [fn]) = normComps A ++ [fn] := by
  unfold normComps
  rw [List.foldl_append]
  simp [normStep, h1, h2, h3]

/-- Joining a clean plain filename (no separator, not empty, not a dot
component) onto a non-empty directory without a trailing separator
appends exactly one component to the resolved path. -/
theorem resolved_join (tmp fn : String)
    (htmp1 : tmp.data ≠ []) (htmp2 : tmp.data.getLast? ≠ some '/')
    (h1 : '/' ∉ fn.data) (h2 : fn ≠ "") (h3 : fn ≠ ".") (h4 : fn ≠ "..") :
    ospJoin tmp fn = tmp ++ "/" ++ fn ∧
    resolved (ospJoin tmp fn) = resolved tmp ++ [fn] := by
  have hfd : fn.data ≠ [] := by
    intro hd
    apply h2
    cases fn with
    | mk l =>
      simp only at hd
      rw [hd]
  have hhead : ¬ fn.data.head? = some '/' := by
    cases hfd' : fn.data with
    | nil => exact absurd hfd' hfd
    | cons c cs =>
      have hc : c ∈ fn.data := by
        rw [hfd']
        exact List.mem_cons_self c cs
      simp only [List.head?]
      intro hcontra
      have : c = '/' := by injection hcontra
      exact h1 (this ▸ hc)
  have hjoin : ospJoin tmp fn = tmp ++ "/" ++ fn := by
    unfold ospJoin
    rw [if_neg hhead, if_neg (by push_neg; exact ⟨htmp1, htmp2⟩)]
  refine ⟨hjoin, ?_⟩
  have hdata : (tmp ++ "/" ++ fn).data = tmp.data ++ '/' :: fn.data := by
    rw [String.data_append, String.data_append]
    simp
  have hmk : String.mk fn.data = fn := by
    cases fn
    rfl
  rw [hjoin]
  unfold resolved splitSlash
  rw [hdata, splitSlashAux_append, splitSlashAux_noSlash fn.data h1 []]
  simp only [List.reverse_nil, List.nil_append, hmk]
  exact normComps_append_single _ fn h2 h3 h4

/-- Every binding the .eml attachment loop adds to the filesystem is a
write of some attachment descriptor to its joined path — no other path
is ever written. -/
theorem processAttachments_fs_mem (tmp : String) (wf : List String) (parts : List Part) :
    ∀ (fs : List (String × List Nat)) (am : List (String × String)) (items : List String)
      (pr : String × List Nat),
      pr ∈ (processAttachments tmp wf parts fs am items).1 →
      pr ∈ fs ∨ ∃ p ∈ parts, attachmentTagged p = true ∧ strTruthy p.filename = true ∧
        pr = (ospJoin tmp (p.filename.getD ""), p.payloadDecoded) := by
  induction parts with
  | nil =>
    intro fs am items pr hpr
    exact Or.inl (by simpa [processAttachments] using hpr)
  | cons q rest ih =>
    intro fs am items pr hpr
    by_cases h1 : attachmentTagged q
    · by_cases h2 : strTruthy q.filename
      · by_cases h3 : ospJoin tmp (q.filename.getD "") ∈ wf
        · simp [processAttachments, h1, h2, h3] at hpr
          exact Or.inl hpr
        · simp only [processAttachments, h1, h2, h3, if_pos, if_neg, if_true,
            if_false] at hpr
          have hpr' : pr ∈ (processAttachments tmp wf rest
              (fsWrite fs (ospJoin tmp (q.filename.getD "")) q.payloadDecoded)
              (dictInsert (q.filename.getD "") (ospJoin tmp (q.filename.getD "")) am)
              (items ++ [q.filename.getD ""])).1 := by
            simpa [processAttachments, h1, h2, h3] using hpr
          rcases ih _ _ _ pr hpr' with hin | ⟨p, hp, hrest⟩
          · rcases List.mem_cons.mp hin with rfl | hfs
            · exact Or.inr ⟨q, List.mem_cons_self q rest, h1, h2, rfl⟩
            · exact Or.inl hfs
          · exact Or.inr ⟨p, List.mem_cons_of_mem q hp, hrest⟩
      · have hpr' : pr ∈ (processAttachments tmp wf rest fs am items).1 := by
          simpa [processAttachments, h1, h2] using hpr
        rcases ih _ _ _ pr hpr' with hin | ⟨p, hp, hrest⟩
        · exact Or.inl hin
        · exact Or.inr ⟨p, List.mem_cons_of_mem q hp, hrest⟩
    · have hpr' : pr ∈ (processAttachments tmp wf rest fs am items).1 := by
        simpa [processAttachments, h1] using hpr
      rcases ih _ _ _ pr hpr' with hin | ⟨p, hp, hrest⟩
      · exact Or.inl hin
      · exact Or.inr ⟨p, List.mem_cons_of_mem q hp, hrest⟩

/-- The same for the .msg loop: every filesystem binding it creates is
a write of some attachment's bytes to the join of the temp directory
with the attachment's effective filename — the try/except only skips
writes, it never redirects them. -/
theorem processMsgAttachments_fs_mem (tmp : String) (wf : List String)
    (atts : List MsgAttachment) :
    ∀ (fs : List (String × List Nat)) (am : List (String × String))
      (items log : List String) (pr : String × List Nat),
      pr ∈ (processMsgAttachments tmp wf atts fs am items log).1 →
      pr ∈ fs ∨ ∃ a ∈ atts, ∃ fn : String, msgEffName a = some fn ∧
        pr = (ospJoin tmp fn, a.data) := by
  induction atts with
  | nil =>
    intro fs am items log pr hpr
    exact Or.inl (by simpa [processMsgAttachments] using hpr)
  | cons b rest ih =>
    intro fs am items log pr hpr
    cases hb : msgEffName b with
    | none =>
      have hpr' : pr ∈ (processMsgAttachments tmp wf rest fs am items log).1 := by
        simpa [processMsgAttachments, hb] using hpr
      rcases ih _ _ _ _ pr hpr' with hin | ⟨a, ha, fn, hfn, hpr2⟩
      · exact Or.inl hin
      · exact Or.inr ⟨a, List.mem_cons_of_mem b ha, fn, hfn, hpr2⟩
    | some fnb =>
      by_cases hw : ospJoin tmp fnb ∈ wf
      · have hpr' : pr ∈ (processMsgAttachments tmp wf rest fs am items
            (log ++ [fnb])).1 := by
          simpa [processMsgAttachments, hb, hw] using hpr
        rcases ih _ _ _ _ pr hpr' with hin | ⟨a, ha, fn, hfn, hpr2⟩
        · exact Or.inl hin
        · exact Or.inr ⟨a, List.mem_cons_of_mem b ha, fn, hfn, hpr2⟩
      · have hpr' : pr ∈ (processMsgAttachments tmp wf rest
            (fsWrite fs (ospJoin tmp fnb) b.data)
            (dictInsert fnb (ospJoin tmp fnb) am) (items ++ [fnb]) log).1 := by
          simpa [processMsgAttachments, hb, hw] using hpr
        rcases ih _ _ _ _ pr hpr' with hin | ⟨a, ha, fn, hfn, hpr2⟩
        · rcases List.mem_cons.mp hin with rfl | hfs
          · exact Or.inr ⟨b, List.mem_cons_self b rest, fnb, hb, rfl⟩
          · exact Or.inl hfs
        · exact Or.inr ⟨a, List.mem_cons_of_mem b ha, fn, hfn, hpr2⟩

/-! ## Claim C6 -/

/-- An attachment whose filename climbs out of the temp directory. -/
def partEvil : Part :=
  ⟨"application/octet-stream", "attachment; filename=evil", some "attachment",
    some "../evil", some (.bytes [7]), [7]⟩

/-- C6 counterexample: a filename with a parent-directory component is
joined verbatim, so the write lands at `/tmp/../evil`, which resolves to
`/evil` — outside the temporary directory — contradicting "the write
lands inside the system temporary-storage directory ... and no file
outside that location is ever written". -/
theorem C6_counterexample :
    (processAttachments "/tmp" [] [partEvil] [] [] []).1 = [("/tmp/../evil", [7])] ∧
    List.lookup "../evil" (processAttachments "/tmp" [] [partEvil] [] [] []).2.1 =
      some "/tmp/../evil" ∧
    resolved "/tmp/../evil" = ["evil"] ∧
    resolved "/tmp" = ["tmp"] ∧
    (resolved "/tmp").isPrefixOf (resolved "/tmp/../evil") = false := by
  decide

/-- C6 (amended): every filesystem binding the materializer creates —
in the .eml loop and in the .msg loop alike — is a write of some
attachment descriptor's bytes to exactly `os.path.join(tmpdir,
filename)` for that descriptor's (effective) filename; when the
filename contains no separator and is not a dot component, that path
resolves to exactly one new component under the temporary directory (so
such writes are confined), but nothing constrains filenames with
separators or parent-directory components, which can resolve outside
it. -/
theorem C6_amended (tmp fn : String)
    (htmp1 : tmp.data ≠ []) (htmp2 : tmp.data.getLast? ≠ some '/')
    (h1 : '/' ∉ fn.data) (h2 : fn ≠ "") (h3 : fn ≠ ".") (h4 : fn ≠ "..") :
    resolved (ospJoin tmp fn) = resolved tmp ++ [fn] ∧
    (∀ (wf : List String) (parts : List Part) (fs : List (String × List Nat))
      (am : List (String × String)) (items : List String) (pr : String × List Nat),
      pr ∈ (processAttachments tmp wf parts fs am items).1 →
      pr ∈ fs ∨ ∃ p ∈ parts, attachmentTagged p = true ∧ strTruthy p.filename = true ∧
        pr = (ospJoin tmp (p.filename.getD ""), p.payloadDecoded)) ∧
    (∀ (wf : List String) (atts : List MsgAttachment) (fs : List (String × List Nat))
      (am : List (String × String)) (items log : List String) (pr : String × List Nat),
      pr ∈ (processMsgAttachments tmp wf atts fs am items log).1 →
      pr ∈ fs ∨ ∃ a ∈ atts, ∃ fn' : String, msgEffName a = some fn' ∧
        pr = (ospJoin tmp fn', a.data)) :=
  ⟨(resolved_join tmp fn htmp1 htmp2 h1 h2 h3 h4).2,
    fun wf parts fs am items pr => processAttachments_fs_mem tmp wf parts fs am items pr,
    fun wf atts fs am items log pr =>
      processMsgAttachments_fs_mem tmp wf atts fs am items log pr⟩

/-- C6 witness: a clean filename lands directly under the temp
directory. -/
theorem C6_witness :
    resolved (ospJoin "/tmp" "safe.pdf") = resolved "/tmp" ++ ["safe.pdf"] :=
  (C6_amended "/tmp" "safe.pdf" (by decide) (by decide) (by decide) (by decide)
    (by decide) (by decide)).1

/-! ## Claim C10 -/

/-- A non-multipart message whose sole part is a text attachment. -/
def partTextAtt : Part :=
  ⟨"text/plain", "attachment; filename=note.txt", some "attachment", some "note.txt",
    some (.str "hello"), [104, 101, 108, 108, 111]⟩

def msgNonMpText : Message := ⟨"", "", "", "", "", "", false, partTextAtt, []⟩

/-- A non-multipart message whose sole part is a binary PDF attachment:
`get_content()` yields bytes, which `html.escape` cannot take. -/
def partPdfAtt : Part :=
  ⟨"application/pdf", "attachment; filename=f.pdf", some "attachment", some "f.pdf",
    some (.bytes [1, 2]), [1, 2]⟩

def msgNonMpPdf : Message := ⟨"", "", "", "", "", "", false, partPdfAtt, []⟩

/-- C10 counterexample: for a non-multipart message whose sole part is a
binary attachment, `html.escape(content)` is applied to bytes and
raises a `TypeError` — the open aborts with no body displayed and the
attachment never materialized, while the claim says the part is
rendered escaped-and-wrapped and simultaneously materialized. -/
theorem C10_counterexample :
    (load_eml ⟨[], true, "/tmp", []⟩ st0 msgNonMpPdf []).outcome = .raised .typeFail ∧
    (load_eml ⟨[], true, "/tmp", []⟩ st0 msgNonMpPdf []).st.attachments = [] ∧
    (load_eml ⟨[], true, "/tmp", []⟩ st0 msgNonMpPdf []).st.bodyHtml = "" ∧
    (load_eml ⟨[], true, "/tmp", []⟩ st0 msgNonMpPdf []).fs = [] := by
  decide

/-- C10 (amended): for a non-multipart `.eml` message whose sole part's
content decodes to text, the body is taken from that content regardless
of its content-disposition — verbatim when the declared type is
`text/html`, otherwise escaped and wrapped — and when the sole part
additionally carries an attachment disposition and a (truthy) filename
and its write succeeds, the open completes with the part simultaneously
rendered as the body and materialized as an attachment.  (A sole part
with binary content instead aborts the load; see the counterexample.) -/
theorem C10_amended (env : Env) (st : ViewerState) (fs : List (String × List Nat))
    (m : Message) (s : String)
    (hmp : m.multipart = false) (hsub : m.subParts = [])
    (hc : m.rootPart.content = some (.str s)) :
    ((load_eml env st m fs).st.bodyHtml =
      if m.rootPart.contentType = "text/html" then s
      else "<pre>" ++ htmlEscape s ++ "</pre>") ∧
    (∀ fn : String, attachmentTagged m.rootPart = true → m.rootPart.filename = some fn →
      fn ≠ "" → ospJoin env.tmpDir fn ∉ env.writeFails →
      (load_eml env st m fs).outcome = .ok ∧
      List.lookup fn (load_eml env st m fs).st.attachments = some (ospJoin env.tmpDir fn) ∧
      List.lookup (ospJoin env.tmpDir fn) (load_eml env st m fs).fs =
        some m.rootPart.payloadDecoded) := by
  have hcb : computeBody m = .ok
      (if m.rootPart.contentType = "text/html" then s
       else "<pre>" ++ htmlEscape s ++ "</pre>") := by
    by_cases ht : m.rootPart.contentType = "text/html" <;>
      simp [computeBody, hmp, hc, ht]
  have hw : m.walkParts = [m.rootPart] := by
    simp [Message.walkParts, hsub]
  constructor
  · rcases hpa : processAttachments env.tmpDir env.writeFails m.walkParts fs
        st.attachments st.attachItems with ⟨fs', am, items, err⟩
    cases err <;> simp [load_eml, hcb, hpa]
  · intro fn hat hfn hne hwf
    have hst : strTruthy m.rootPart.filename = true := by
      simp [strTruthy, hfn, hne]
    have hgd : m.rootPart.filename.getD "" = fn := by
      simp [hfn]
    have hpa : processAttachments env.tmpDir env.writeFails m.walkParts fs
        st.attachments st.attachItems =
        (fsWrite fs (ospJoin env.tmpDir fn) m.rootPart.payloadDecoded,
          dictInsert fn (ospJoin env.tmpDir fn) st.attachments,
          st.attachItems ++ [fn], none) := by
      rw [hw]
      simp [processAttachments, hat, hst, hgd, hwf]
    refine ⟨?_, ?_, ?_⟩
    · simp [load_eml, hcb, hpa]
    · rw [show (load_eml env st m fs).st.attachments =
          dictInsert fn (ospJoin env.tmpDir fn) st.attachments by
        simp [load_eml, hcb, hpa]]
      rw [dictInsert_lookup]
      simp
    · rw [show (load_eml env st m fs).fs =
          fsWrite fs (ospJoin env.tmpDir fn) m.rootPart.payloadDecoded by
        simp [load_eml, hcb, hpa]]
      simp [fsWrite, List.lookup]

/-- C10 witness: the sole `text/plain` attachment part of
`msgNonMpText` is rendered escaped-and-wrapped as the body and at the
same time materialized under `note.txt`. -/
theorem C10_witness :
    ((load_eml ⟨[], true, "/tmp", []⟩ st0 msgNonMpText []).st.bodyHtml =
      if msgNonMpText.rootPart.contentType = "text/html" then "hello"
      else "<pre>" ++ htmlEscape "hello" ++ "</pre>") ∧
    (load_eml ⟨[], true, "/tmp", []⟩ st0 msgNonMpText []).outcome = .ok ∧
    List.lookup "note.txt"
      (load_eml ⟨[], true, "/tmp", []⟩ st0 msgNonMpText []).st.attachments =
      some (ospJoin "/tmp" "note.txt") ∧
    List.lookup (ospJoin "/tmp" "note.txt")
      (load_eml ⟨[], true, "/tmp", []⟩ st0 msgNonMpText []).fs =
      some msgNonMpText.rootPart.payloadDecoded := by
  have h := C10_amended ⟨[], true, "/tmp", []⟩ st0 [] msgNonMpText "hello" rfl rfl rfl
  have h2 := h.2 "note.txt" (by decide) rfl (by decide) (by decide)
  exact ⟨h.1, h2.1, h2.2.1, h2.2.2⟩

end Emlee
